import Mathlib

/-!
# Workflow execution engine — verification development

Shallow embedding of the workflow execution engine of `src/server/routes.ts`
(functions `executeWorkflow`, lines 347–406, and `executeNode`, lines 408–541).

Modelling conventions:

* JavaScript objects holding JSON data are modelled by the inductive `Json`
  (numbers as `Int`: the engine never computes with numbers, it only carries
  response bodies around, and every value in the claims is an integer).
* The execution context `data` (a plain JS object written with spread syntax
  `{...data, [nodeId]: nodeResult}`) is an insertion-ordered association
  list; `ctxInsert` reproduces JS spread semantics: an existing key is
  overwritten in place, a new key is appended at the end.
* The outbound HTTP call (`fetch(url, { method })` followed by
  `response.json()`) is an oracle `Http : String → String → HttpOutcome`.
  WHATWG `fetch` resolves on every HTTP response whatever its status code and
  rejects only on transport errors, and `response.json()` rejects only when
  the body is not valid JSON, so the outcome is either `transportError`
  (fetch rejected), `invalidJson` (fetch resolved, `.json()` rejected) or
  `jsonResponse` (both resolved) — the status code is carried so that the
  model can express non-2xx responses, and the engine (like the source,
  which never reads `response.status` or `response.ok`) does not look at it.
* Thrown JS exceptions become `Except RunError`; every throw site of
  `executeNode` attaches the failing node id (`error.nodeId`), so `RunError`
  carries it.
* The in-place mutation of the node array (`nodes[nodeIndex].data.status = …`)
  becomes explicit state passing of `EngineState`; `setStatusAt` reproduces
  `findIndex` + element assignment (first matching element only).
  `EngineState.log` additionally records, in order, each node id whose
  `switch (node.type)` dispatch was entered, together with the context value
  the node was invoked with; this is the observation point for "which steps
  ran, in which order, seeing which context".
* The unbounded recursion of `executeNode` becomes a fuel parameter: `none`
  means the recursion depth exceeded the fuel, i.e. the only way a run can
  fail to produce a value for every fuel is genuine non-termination.
-/

namespace Workflow

/-- JSON values (JS objects/arrays/primitives as the engine carries them).
Numbers are modelled as integers; `undefined`-valued properties are omitted
(they are invisible to `JSON.stringify` and to every read the engine does). -/
inductive Json where
  | null : Json
  | bool (b : Bool) : Json
  | num (n : Int) : Json
  | str (s : String) : Json
  | arr (elems : List Json) : Json
  | obj (fields : List (String × Json)) : Json
deriving Repr

/-- Escape a string for JSON output: backslash and double quote. -/
def escapeJson (s : String) : String :=
  String.mk (s.data.foldr
    (fun c acc =>
      if c = '\\' then '\\' :: '\\' :: acc
      else if c = '"' then '\\' :: '"' :: acc
      else c :: acc) [])

mutual
/-- Model of `JSON.stringify` on the values the engine handles. -/
def stringify : Json → String
  | Json.null => "null"
  | Json.bool true => "true"
  | Json.bool false => "false"
  | Json.num n => toString n
  | Json.str s => "\"" ++ escapeJson s ++ "\""
  | Json.arr elems => "[" ++ stringifyArr elems ++ "]"
  | Json.obj fields => "\x7b" ++ stringifyObj fields ++ "\x7d"

/-- Comma-separated serialization of array elements. -/
def stringifyArr : List Json → String
  | [] => ""
  | [x] => stringify x
  | x :: rest => stringify x ++ "," ++ stringifyArr rest

/-- Comma-separated serialization of object fields. -/
def stringifyObj : List (String × Json) → String
  | [] => ""
  | [(k, v)] => "\"" ++ escapeJson k ++ "\":" ++ stringify v
  | (k, v) :: rest =>
      "\"" ++ escapeJson k ++ "\":" ++ stringify v ++ "," ++ stringifyObj rest
end

/-- The kind-specific `node.data` object. The engine reads exactly these
fields: `status` (stamped during a run), `url`/`method` (API), `to`/
`subject`/`body` (EMAIL), `text` (TEXT). Absent properties are `none`. -/
structure NodeData where
  status : String := ""
  url : Option String := none
  method : Option String := none
  «to» : Option String := none
  subject : Option String := none
  body : Option String := none
  text : Option String := none
deriving Repr, DecidableEq

/-- A workflow node: `id`, the `type` tag the engine switches on
("START", "API", "EMAIL", "TEXT", "CONDITION", "END", or anything else for
the `default` branch), and its `data`. The presentation-only `position`
field is irrelevant to execution and omitted. -/
structure Node where
  id : String
  type : String
  data : NodeData
deriving Repr, DecidableEq

/-- A directed edge. The engine reads only `source` and `target`
(`sourceHandle`/`targetHandle` are never consulted by `executeNode`). -/
structure Edge where
  id : String
  source : String
  target : String
deriving Repr, DecidableEq

/-- The accumulated execution context: the JS object `data` threaded through
`executeNode`, mapping node id to that node's result payload. -/
abbrev Ctx := List (String × Json)

/-- JS object spread `{...data, [k]: v}`: overwrite in place when the key
exists, append at the end otherwise. -/
def ctxInsert (ctx : Ctx) (k : String) (v : Json) : Ctx :=
  if ctx.any (fun p => p.1 == k) then
    ctx.map (fun p => if p.1 == k then (k, v) else p)
  else
    ctx ++ [(k, v)]

/-- Outcome of `fetch(url, { method })` followed by `response.json()`. -/
inductive HttpOutcome where
  | transportError (msg : String) : HttpOutcome
  | invalidJson (status : Nat) (msg : String) : HttpOutcome
  | jsonResponse (status : Nat) (body : Json) : HttpOutcome

/-- The HTTP collaborator: a pure oracle from (url, method) to the outcome. -/
abbrev Http := String → String → HttpOutcome

/-- A thrown execution error: every throw site of `executeNode` attaches
`error.nodeId` and a message. -/
structure RunError where
  nodeId : String
  message : String
deriving Repr, DecidableEq

/-- Mutable state of one run: the (deep-copied) node array whose `status`
fields `executeNode` stamps in place, plus the instrumentation log of
`(node id, context it was invoked with)`, in execution order. -/
structure EngineState where
  nodes : List Node
  log : List (String × Ctx)

/-- `nodes.findIndex(n => n.id === nodeId)` followed by reading the element:
first node with the given id. -/
def firstById (nodes : List Node) (nodeId : String) : Option Node :=
  nodes.find? (fun n => n.id == nodeId)

/-- `nodes.findIndex(n => n.id === nodeId)` followed by
`nodes[i].data.status = status`: stamp the first node with the given id,
leave everything else (including later duplicates) alone; no-op when the id
is absent. -/
def setStatusAt : List Node → String → String → List Node
  | [], _, _ => []
  | n :: rest, nodeId, status =>
    if n.id == nodeId then
      { n with data := { n.data with status := status } } :: rest
    else
      n :: setStatusAt rest nodeId status

/-- JS `x || d` for a string-or-undefined `x`: the default is used both when
the property is absent and when it is the empty string (falsy). -/
def jsOr (x : Option String) (d : String) : String :=
  match x with
  | some s => if s = "" then d else s
  | none => d

/-- `{ status: "success" }` — payload of START, CONDITION and END steps. -/
def simplePayload : Json := Json.obj [("status", Json.str "success")]

/-- `{ status: "success", data: responseData }` — payload of a successful
API step. -/
def apiPayload (body : Json) : Json :=
  Json.obj [("status", Json.str "success"), ("data", body)]

/-- `{ status: "success", to, subject, body }` — payload of an EMAIL step.
`to`/`subject` are copied from config (omitted when `undefined`); `body` is
`node.data?.body || JSON.stringify(data)`. -/
def emailPayload (n : Node) (ctx : Ctx) : Json :=
  Json.obj ([("status", Json.str "success")]
    ++ (match n.data.«to» with
        | some t => [("to", Json.str t)]
        | none => [])
    ++ (match n.data.subject with
        | some s => [("subject", Json.str s)]
        | none => [])
    ++ [("body", Json.str (jsOr n.data.body (stringify (Json.obj ctx))))])

/-- `{ status: "success", text: node.data?.text || "" }` — payload of a TEXT
step. -/
def textPayload (n : Node) : Json :=
  Json.obj [("status", Json.str "success"), ("text", Json.str (jsOr n.data.text ""))]

/-- `edges.filter(e => e.source === nodeId)` — outgoing edges in stored
edge-list order. -/
def outgoing (edges : List Edge) (nodeId : String) : List Edge :=
  edges.filter (fun e => e.source == nodeId)

/-- The `for (const edge of outgoingEdges) { await executeNode(...) }` loop:
run each child sequentially in edge-list order, threading the mutated state
but passing every child the same context (the recursive calls' returned
contexts are discarded by the source). Stops at the first thrown error, and
propagates fuel exhaustion (`none`). -/
def runList (step : String → EngineState → Option (EngineState × Except RunError Ctx)) :
    List Edge → EngineState → Option (EngineState × Except RunError Unit)
  | [], st => some (st, Except.ok ())
  | e :: rest, st =>
    match step e.target st with
    | none => none
    | some (st', Except.error err) => some (st', Except.error err)
    | some (st', Except.ok _) => runList step rest st'

/-- After the switch succeeded on a non-END node: run the children loop,
then return this node's own `updatedData` (the source's final
`return updatedData`, which ignores what the children returned). -/
def withChildren (updated : Ctx)
    (children : Option (EngineState × Except RunError Unit)) :
    Option (EngineState × Except RunError Ctx) :=
  match children with
  | none => none
  | some (st, Except.error err) => some (st, Except.error err)
  | some (st, Except.ok _) => some (st, Except.ok updated)

/-- `executeNode(nodeId, nodes, edges, data)` of `src/server/routes.ts`
(lines 408–541), with a fuel bound on recursion depth (`none` = the source
would still be recursing at that depth).

Faithful points worth noting against the source:
* node lookup is `findIndex` by id — first match;
* the START case stamps no status (the start node was pre-stamped by
  `executeWorkflow`); API/EMAIL/TEXT/CONDITION/END stamp PASSED, the API
  failure and the `default` branch stamp FAILED before throwing;
* the EMAIL and TEXT `try/catch` blocks contain no throwing operation, so
  their catch branches are dead code and those steps always succeed;
* the API case inspects only the resolution/rejection of `fetch` and
  `.json()`, never the response status;
* END returns `{...data, [nodeId]: nodeResult}` without following edges;
* every other case merges its payload into `updatedData`, runs the children
  loop sequentially in edge order, and returns its own `updatedData`. -/
def executeNode (http : Http) (edges : List Edge) :
    Nat → String → EngineState → Ctx → Option (EngineState × Except RunError Ctx)
  | 0, _, _, _ => none
  | fuel + 1, nodeId, st, ctx =>
    match firstById st.nodes nodeId with
    | none => some (st, Except.error ⟨nodeId, "Node " ++ nodeId ++ " not found"⟩)
    | some node =>
      let st1 : EngineState := ⟨st.nodes, st.log ++ [(nodeId, ctx)]⟩
      if node.type = "START" then
        let updated := ctxInsert ctx nodeId simplePayload
        withChildren updated
          (runList (fun t s => executeNode http edges fuel t s updated)
            (outgoing edges nodeId) st1)
      else if node.type = "API" then
        match http (jsOr node.data.url "") (jsOr node.data.method "GET") with
        | HttpOutcome.jsonResponse _ body =>
          let st2 : EngineState := ⟨setStatusAt st1.nodes nodeId "PASSED", st1.log⟩
          let updated := ctxInsert ctx nodeId (apiPayload body)
          withChildren updated
            (runList (fun t s => executeNode http edges fuel t s updated)
              (outgoing edges nodeId) st2)
        | HttpOutcome.transportError m =>
          some (⟨setStatusAt st1.nodes nodeId "FAILED", st1.log⟩,
            Except.error ⟨nodeId, "API request failed: " ++ m⟩)
        | HttpOutcome.invalidJson _ m =>
          some (⟨setStatusAt st1.nodes nodeId "FAILED", st1.log⟩,
            Except.error ⟨nodeId, "API request failed: " ++ m⟩)
      else if node.type = "EMAIL" then
        let st2 : EngineState := ⟨setStatusAt st1.nodes nodeId "PASSED", st1.log⟩
        let updated := ctxInsert ctx nodeId (emailPayload node ctx)
        withChildren updated
          (runList (fun t s => executeNode http edges fuel t s updated)
            (outgoing edges nodeId) st2)
      else if node.type = "TEXT" then
        let st2 : EngineState := ⟨setStatusAt st1.nodes nodeId "PASSED", st1.log⟩
        let updated := ctxInsert ctx nodeId (textPayload node)
        withChildren updated
          (runList (fun t s => executeNode http edges fuel t s updated)
            (outgoing edges nodeId) st2)
      else if node.type = "CONDITION" then
        let st2 : EngineState := ⟨setStatusAt st1.nodes nodeId "PASSED", st1.log⟩
        let updated := ctxInsert ctx nodeId simplePayload
        withChildren updated
          (runList (fun t s => executeNode http edges fuel t s updated)
            (outgoing edges nodeId) st2)
      else if node.type = "END" then
        some (⟨setStatusAt st1.nodes nodeId "PASSED", st1.log⟩,
          Except.ok (ctxInsert ctx nodeId simplePayload))
      else
        some (⟨setStatusAt st1.nodes nodeId "FAILED", st1.log⟩,
          Except.error ⟨nodeId, "Unknown node type: " ++ node.type⟩)

/-- A workflow as the engine consumes it: `workflow.nodes` and
`workflow.edges` (the `|| []` defaults are value-level and need no model). -/
structure Workflow where
  nodes : List Node
  edges : List Edge

/-- The value `executeWorkflow` resolves to. The no-start return carries
neither `results` nor `nodes` (modelled as `none`); a failed run carries
`results: {}` (modelled as `some []`). -/
structure RunResult where
  success : Bool
  message : String
  results : Option Ctx
  nodes : Option (List Node)

/-- `nodes.forEach(node => { node.data.status = "IDLE" })`. -/
def allIdle (nodes : List Node) : List Node :=
  nodes.map (fun n => { n with data := { n.data with status := "IDLE" } })

/-- Initial node array of a run: every status IDLE, then the start node
(first node with the start node's id) stamped PASSED. -/
def initNodes (nodes : List Node) (startId : String) : List Node :=
  setStatusAt (allIdle nodes) startId "PASSED"

/-- `executeWorkflow(workflow)` of `src/server/routes.ts` (lines 347–406),
returning the result together with the execution log. `none` = the fuel
bound was hit (the source would still be recursing).

The source deep-copies `workflow.nodes` (`JSON.parse(JSON.stringify(…))`)
before stamping statuses; in this value-level embedding the copy is the node
list itself, and `executeWorkflowRef` below exposes the heap-level content
of that copy. The catch block marks `error.nodeId` FAILED only when that id
is truthy and present (`findIndex !== -1`); the outer catch of the source
can only be reached by a failure of `JSON.parse`/`JSON.stringify` on a value
that came from JSON, so it is dead code and not modelled. -/
def executeWorkflow (http : Http) (fuel : Nat) (wf : Workflow) :
    Option (RunResult × List (String × Ctx)) :=
  match wf.nodes.find? (fun n => n.type == "START") with
  | none =>
    some ({ success := false, message := "No start node found",
            results := none, nodes := none }, [])
  | some startNode =>
    match executeNode http wf.edges fuel startNode.id
        ⟨initNodes wf.nodes startNode.id, []⟩ [] with
    | none => none
    | some (st, Except.ok results) =>
      some ({ success := true, message := "Workflow executed successfully",
              results := some results, nodes := some st.nodes }, st.log)
    | some (st, Except.error err) =>
      let finalNodes :=
        if err.nodeId = "" then st.nodes else setStatusAt st.nodes err.nodeId "FAILED"
      some ({ success := false, message := err.message,
              results := some [], nodes := some finalNodes }, st.log)

end Workflow

namespace Workflow

/-!
## Heap-level view of the defensive copy

`executeWorkflow` line 350 deep-copies the caller's node array
(`JSON.parse(JSON.stringify(workflow.nodes || []))`) before stamping any
status. To state the frame property ("the caller's array is unchanged") the
array lives in an explicit heap: `store` maps references to node arrays, the
caller's array sits at `r`, the copy is allocated at a distinct fresh
reference, and every status stamp of the run (which in the flat model is the
evolution from the copy to the run's final node array) hits only the fresh
cell. `edges` is read but never written, so it is passed by value. -/
def executeWorkflowRef (http : Http) (fuel : Nat) (store : Nat → List Node)
    (r fresh : Nat) (edges : List Edge) :
    Option RunResult × (Nat → List Node) :=
  let wf : Workflow := ⟨store r, edges⟩
  match executeWorkflow http fuel wf with
  | none => (none, fun i => if i = fresh then store r else store i)
  | some (res, _) =>
    (some res, fun i => if i = fresh then res.nodes.getD (store r) else store i)

/-- An HTTP oracle for scenarios that contain no API node (its value is
never consulted there). -/
def httpUnused : Http := fun _ _ => HttpOutcome.transportError "unreachable"

/-- A workflow without any START-typed node. -/
def wfNoStart : Workflow :=
  ⟨[⟨"z", "END", {}⟩, ⟨"t", "TEXT", { text := some "hello" }⟩], [⟨"e1", "z", "t"⟩]⟩

/-- C4: for a graph with no node of type START, `executeWorkflow` returns
`success=false` with message exactly "No start node found", executes no step
(the log is empty), and stamps no status (the returned value carries no node
list and the input is untouched). -/
theorem noStartNode (http : Http) (fuel : Nat) (wf : Workflow)
    (h : wf.nodes.find? (fun n => n.type == "START") = none) :
    executeWorkflow http fuel wf =
      some ({ success := false, message := "No start node found",
              results := none, nodes := none }, []) := by
  unfold executeWorkflow
  rw [h]

/-- C4 witness: the no-start theorem instantiated on a concrete two-node
graph with no START node. -/
theorem noStartNode_witness :
    (wfNoStart.nodes.find? (fun n => n.type == "START") = none) ∧
      executeWorkflow httpUnused 3 wfNoStart =
        some ({ success := false, message := "No start node found",
                results := none, nodes := none }, []) :=
  ⟨rfl, noStartNode httpUnused 3 wfNoStart rfl⟩

/-- C7: the run never mutates the caller's workflow: in the heap model of
the defensive copy, every reference other than the freshly allocated copy —
in particular the caller's node array at `r` — holds the same value after
the run, for every graph, oracle, fuel and outcome. -/
theorem noInputMutation (http : Http) (fuel : Nat) (store : Nat → List Node)
    (r fresh : Nat) (edges : List Edge) (hne : fresh ≠ r) :
    (executeWorkflowRef http fuel store r fresh edges).2 r = store r ∧
      ∀ i, i ≠ fresh → (executeWorkflowRef http fuel store r fresh edges).2 i = store i := by
  unfold executeWorkflowRef
  dsimp only
  constructor
  · split <;> simp [Ne.symm hne]
  · intro i hi
    split <;> simp [hi]

/-- C7 witness: the frame property instantiated on a concrete store holding
a one-node workflow at reference 0 with the copy at reference 1. -/
theorem noInputMutation_witness :
    ((1 : Nat) ≠ 0) ∧
      (executeWorkflowRef httpUnused 3 (fun _ => [⟨"s", "START", {}⟩]) 0 1 []).2 0 =
        [⟨"s", "START", {}⟩] :=
  ⟨by decide,
    (noInputMutation httpUnused 3 (fun _ => [⟨"s", "START", {}⟩]) 0 1 [] (by decide)).1⟩

end Workflow

namespace Workflow

/-- C9 (amended): executing an EMAIL node (here: one with no outgoing edges,
so the returned context is the step's own merge) always succeeds with
payload `{status:"success", to, subject, body}`; `to`/`subject` are copied
from config, and `body` is the config body when present and non-empty (JS
truthiness of `node.data?.body || JSON.stringify(data)`), otherwise the JSON
serialization of the current context. -/
theorem emailPayloadSpec (http : Http) (edges : List Edge) (fuel : Nat)
    (n : Node) (st : EngineState) (ctx : Ctx)
    (hn : firstById st.nodes n.id = some n) (ht : n.type = "EMAIL")
    (hout : outgoing edges n.id = []) :
    executeNode http edges (fuel + 1) n.id st ctx =
      some (⟨setStatusAt st.nodes n.id "PASSED", st.log ++ [(n.id, ctx)]⟩,
        Except.ok (ctxInsert ctx n.id (emailPayload n ctx))) ∧
    (∀ t sbj, n.data.«to» = some t → n.data.subject = some sbj →
      emailPayload n ctx = Json.obj
        [("status", Json.str "success"), ("to", Json.str t), ("subject", Json.str sbj),
         ("body", Json.str (jsOr n.data.body (stringify (Json.obj ctx))))]) ∧
    (∀ b, n.data.body = some b → b ≠ "" →
      jsOr n.data.body (stringify (Json.obj ctx)) = b) ∧
    (n.data.body = none →
      jsOr n.data.body (stringify (Json.obj ctx)) = stringify (Json.obj ctx)) ∧
    (n.data.body = some "" →
      jsOr n.data.body (stringify (Json.obj ctx)) = stringify (Json.obj ctx)) := by
  refine ⟨?_, ?_, ?_, ?_, ?_⟩
  · simp only [executeNode, hn, ht]
    simp [runList, withChildren, hout]
  · intro t sbj hto hsbj
    simp [emailPayload, hto, hsbj]
  · intro b hb hne
    simp [jsOr, hb, hne]
  · intro hb
    simp [jsOr, hb]
  · intro hb
    simp [jsOr, hb]

/-- A concrete EMAIL node whose configured body is the empty string. -/
def emailEmptyBodyNode : Node := ⟨"e", "EMAIL", { body := some "" }⟩

/-- C9 counterexample: for an EMAIL node whose config body is present but
empty, the step's payload body is the JSON-serialized context "\x7b\x7d",
not the configured body "" — refuting "body equal to the config body when
present". -/
theorem emptyBodyFallsBack :
    emailEmptyBodyNode.data.body = some "" ∧
    executeNode httpUnused [] 1 "e" ⟨[emailEmptyBodyNode], []⟩ [] =
      some (⟨[⟨"e", "EMAIL", { status := "PASSED", body := some "" }⟩], [("e", [])]⟩,
        Except.ok [("e", Json.obj [("status", Json.str "success"),
          ("body", Json.str "\x7b\x7d")])]) ∧
    ("\x7b\x7d" : String) ≠ "" :=
  ⟨rfl, rfl, by decide⟩

/-- A concrete EMAIL node with recipient, subject and a non-empty body. -/
def emailFullNode : Node :=
  ⟨"e", "EMAIL", { «to» := some "u@x.com", subject := some "hi", body := some "B" }⟩

/-- C9 witness: the amended EMAIL-step theorem instantiated on a concrete
node with recipient `u@x.com`, subject `hi` and non-empty body `B`. -/
theorem emailPayloadSpec_witness :
    executeNode httpUnused [] 4 "e" ⟨[emailFullNode], []⟩ [] =
      some (⟨[⟨"e", "EMAIL",
          { status := "PASSED", «to» := some "u@x.com", subject := some "hi",
            body := some "B" }⟩], [("e", [])]⟩,
        Except.ok [("e", emailPayload emailFullNode [])]) ∧
    emailPayload emailFullNode [] = Json.obj
      [("status", Json.str "success"), ("to", Json.str "u@x.com"),
       ("subject", Json.str "hi"),
       ("body", Json.str (jsOr (some "B") (stringify (Json.obj []))))] ∧
    jsOr (some "B") (stringify (Json.obj [])) = "B" := by
  have h := emailPayloadSpec httpUnused [] 3 emailFullNode ⟨[emailFullNode], []⟩ []
    rfl rfl rfl
  exact ⟨h.1, h.2.1 "u@x.com" "hi" rfl rfl, h.2.2.1 "B" rfl (by decide)⟩

end Workflow

namespace Workflow

/-- Every successful return of `executeNode` is the node's own
`updatedData` — the incoming context plus this node's entry. The recursive
calls' return values are discarded by the `for` loop (lines 533–535), so
nothing a child merged ever reaches the caller. -/
theorem executeNode_ok_shape (http : Http) (edges : List Edge) (fuel : Nat)
    (nodeId : String) (st st' : EngineState) (ctx c : Ctx)
    (h : executeNode http edges fuel nodeId st ctx = some (st', Except.ok c)) :
    ∃ p, c = ctxInsert ctx nodeId p := by
  cases fuel with
  | zero => simp [executeNode] at h
  | succ fuel =>
    cases hf : firstById st.nodes nodeId with
    | none => simp only [executeNode, hf] at h; simp at h
    | some node =>
      simp only [executeNode, hf, withChildren] at h
      repeat' split at h
      all_goals
        first
        | exact Option.noConfusion h
        | (injection h with h'
           injection h' with h1 h2
           first
           | exact Except.noConfusion h2
           | (injection h2 with h3
              exact ⟨_, h3.symm⟩))

end Workflow

namespace Workflow

/-- `ctxInsert` into the empty context is a singleton. -/
theorem ctxInsert_nil (k : String) (v : Json) : ctxInsert [] k v = [(k, v)] := rfl

/-- C1 (amended): for every successful run, the `results` value returned by
`executeWorkflow` is the start node's own updated context — exactly one
entry, keyed by the start node's id. Entries of downstream nodes are absent,
because the traversal loop discards the recursive calls' returned contexts. -/
theorem results_start_entry_only (http : Http) (fuel : Nat) (wf : Workflow)
    (r : RunResult) (log : List (String × Ctx))
    (h : executeWorkflow http fuel wf = some (r, log)) (hs : r.success = true) :
    ∃ s0 p, wf.nodes.find? (fun n => n.type == "START") = some s0 ∧
      r.results = some [(s0.id, p)] := by
  unfold executeWorkflow at h
  cases hf : wf.nodes.find? (fun n => n.type == "START") with
  | none =>
    rw [hf] at h
    dsimp only at h
    injection h with h'
    injection h' with hr hl
    rw [← hr] at hs
    simp at hs
  | some s0 =>
    rw [hf] at h
    dsimp only at h
    cases hex : executeNode http wf.edges fuel s0.id ⟨initNodes wf.nodes s0.id, []⟩ [] with
    | none => rw [hex] at h; exact Option.noConfusion h
    | some p2 =>
      rw [hex] at h
      obtain ⟨st, res⟩ := p2
      cases res with
      | error err =>
        dsimp only at h
        injection h with h'
        injection h' with hr hl
        rw [← hr] at hs
        simp at hs
      | ok c =>
        dsimp only at h
        injection h with h'
        injection h' with hr hl
        obtain ⟨p, hc⟩ := executeNode_ok_shape http wf.edges fuel s0.id _ st [] c hex
        refine ⟨s0, p, rfl, ?_⟩
        rw [← hr]
        simp only [hc, ctxInsert_nil]

/-- HTTP oracle answering every request with 200 and JSON body `{"v":1}`. -/
def httpOk : Http := fun _ _ => HttpOutcome.jsonResponse 200 (Json.obj [("v", Json.num 1)])

/-- The linear graph Start(s) → ApiCall(a) → End(z). -/
def wfLinear : Workflow :=
  ⟨[⟨"s", "START", {}⟩, ⟨"a", "API", { url := some "https://x/ok" }⟩, ⟨"z", "END", {}⟩],
    [⟨"e1", "s", "a"⟩, ⟨"e2", "a", "z"⟩]⟩

/-- C1 counterexample: running Start → ApiCall → End with a successful API
call yields `success=true`, yet `results` holds only the Start entry — the
entry keyed by the ApiCall node id ("a") is absent, refuting "the results
value is the full merge of the payloads of every node reached". (The log
shows node "a" did run and its payload did reach the End node's context —
it is merely dropped from the returned results.) -/
theorem resultsOmitDownstream :
    executeWorkflow httpOk 10 wfLinear =
      some ({ success := true, message := "Workflow executed successfully",
              results := some [("s", simplePayload)],
              nodes := some [⟨"s", "START", { status := "PASSED" }⟩,
                ⟨"a", "API", { status := "PASSED", url := some "https://x/ok" }⟩,
                ⟨"z", "END", { status := "PASSED" }⟩] },
        [("s", []), ("a", [("s", simplePayload)]),
         ("z", [("s", simplePayload), ("a", apiPayload (Json.obj [("v", Json.num 1)]))])]) ∧
    List.lookup "a" [(("s" : String), simplePayload)] = none ∧
    List.lookup "s" [(("s" : String), simplePayload)] = some simplePayload :=
  ⟨rfl, rfl, rfl⟩

/-- The `RunResult` of running `wfLinear` under `httpOk`. -/
def runLinearResult : RunResult :=
  { success := true, message := "Workflow executed successfully",
    results := some [("s", simplePayload)],
    nodes := some [⟨"s", "START", { status := "PASSED" }⟩,
      ⟨"a", "API", { status := "PASSED", url := some "https://x/ok" }⟩,
      ⟨"z", "END", { status := "PASSED" }⟩] }

/-- The execution log of running `wfLinear` under `httpOk`. -/
def runLinearLog : List (String × Ctx) :=
  [("s", []), ("a", [("s", simplePayload)]),
   ("z", [("s", simplePayload), ("a", apiPayload (Json.obj [("v", Json.num 1)]))])]

/-- C1 witness: the amended theorem instantiated on the concrete successful
linear run. -/
theorem results_start_entry_only_witness :
    ∃ s0 p, wfLinear.nodes.find? (fun n => n.type == "START") = some s0 ∧
      runLinearResult.results = some [(s0.id, p)] :=
  results_start_entry_only httpOk 10 wfLinear runLinearResult runLinearLog rfl rfl

end Workflow

namespace Workflow

/-- HTTP oracle answering every request with status 500 and the valid JSON
body `{"err":"boom"}`. -/
def http500 : Http := fun _ _ => HttpOutcome.jsonResponse 500 (Json.obj [("err", Json.str "boom")])

/-- HTTP oracle rejecting every request with a transport error. -/
def httpErr : Http := fun _ _ => HttpOutcome.transportError "connect ECONNREFUSED"

/-- The graph Start(s) → ApiCall(a) → SendEmail(e) → End(z), with the API
node's url/method left as parameters. -/
def wfApiMail (du dm : Option String) : Workflow :=
  ⟨[⟨"s", "START", {}⟩, ⟨"a", "API", { url := du, method := dm }⟩,
    ⟨"e", "EMAIL", { «to» := some "u@x.com" }⟩, ⟨"z", "END", {}⟩],
    [⟨"e1", "s", "a"⟩, ⟨"e2", "a", "e"⟩, ⟨"e3", "e", "z"⟩]⟩

/-- The EMAIL node of `wfApiMail`. -/
def mailNode : Node := ⟨"e", "EMAIL", { «to» := some "u@x.com" }⟩

/-- Context after the Start and (successful) ApiCall steps of `wfApiMail`
under `http500`. -/
def ctxSA : Ctx := [("s", simplePayload), ("a", apiPayload (Json.obj [("err", Json.str "boom")]))]

/-- C2 counterexample: a 500 response whose body is valid JSON does NOT fail
the ApiCall step. `fetch` only rejects on transport errors and `.json()`
only on unparsable bodies, and the source never reads `response.status`:
the run returns `success=true`, the API node is PASSED, and the downstream
SendEmail node IS executed ("e" is in the log) — refuting the claim for
non-2xx responses. -/
theorem non2xxPasses :
    http500 "https://x/ok" "GET" =
      HttpOutcome.jsonResponse 500 (Json.obj [("err", Json.str "boom")]) ∧
    executeWorkflow http500 10 (wfApiMail (some "https://x/ok") none) =
      some ({ success := true, message := "Workflow executed successfully",
              results := some [("s", simplePayload)],
              nodes := some [⟨"s", "START", { status := "PASSED" }⟩,
                ⟨"a", "API", { status := "PASSED", url := some "https://x/ok" }⟩,
                ⟨"e", "EMAIL", { status := "PASSED", «to» := some "u@x.com" }⟩,
                ⟨"z", "END", { status := "PASSED" }⟩] },
        [("s", []), ("a", [("s", simplePayload)]), ("e", ctxSA),
         ("z", ctxInsert ctxSA "e" (emailPayload mailNode ctxSA))]) ∧
    "e" ∈ ([("s", []), ("a", [("s", simplePayload)]), ("e", ctxSA),
      ("z", ctxInsert ctxSA "e" (emailPayload mailNode ctxSA))].map
        (Prod.fst (α := String) (β := Ctx))) :=
  ⟨rfl, rfl, by decide⟩

/-- C2 (amended): the ApiCall step fails exactly when the outbound request
rejects — transport error or invalid JSON body (a non-2xx response with a
valid JSON body passes, see the counterexample). When it does fail, the run
aborts at that step: `success=false` with the step's error text, the API
node is FAILED, and the downstream SendEmail node is never invoked (absent
from the log) and keeps status IDLE. -/
theorem apiFailureAborts (http : Http) (du dm : Option String) (m : String) (fuel : Nat)
    (hhttp : http (jsOr du "") (jsOr dm "GET") = HttpOutcome.transportError m ∨
      ∃ k, http (jsOr du "") (jsOr dm "GET") = HttpOutcome.invalidJson k m) :
    executeWorkflow http (fuel + 2) (wfApiMail du dm) =
      some ({ success := false, message := "API request failed: " ++ m,
              results := some [],
              nodes := some [⟨"s", "START", { status := "PASSED" }⟩,
                ⟨"a", "API", { status := "FAILED", url := du, method := dm }⟩,
                ⟨"e", "EMAIL", { status := "IDLE", «to» := some "u@x.com" }⟩,
                ⟨"z", "END", { status := "IDLE" }⟩] },
        [("s", []), ("a", [("s", simplePayload)])]) ∧
    "e" ∉ ([("s", []), ("a", [("s", simplePayload)])].map
      (Prod.fst (α := String) (β := Ctx))) := by
  refine ⟨?_, by decide⟩
  rcases hhttp with hh | ⟨k, hh⟩ <;>
    simp [executeWorkflow, wfApiMail, executeNode, initNodes, allIdle, setStatusAt,
      firstById, outgoing, runList, withChildren, hh, ctxInsert]

/-- C2 witness: the amended theorem instantiated with the transport-error
oracle on the concrete Start → ApiCall → SendEmail → End graph. -/
theorem apiFailureAborts_witness :
    (httpErr (jsOr (some "https://x/ok") "") (jsOr none "GET") =
      HttpOutcome.transportError "connect ECONNREFUSED" ∨
      ∃ k, httpErr (jsOr (some "https://x/ok") "") (jsOr none "GET") =
        HttpOutcome.invalidJson k "connect ECONNREFUSED") ∧
    (executeWorkflow httpErr 10 (wfApiMail (some "https://x/ok") none) =
      some ({ success := false,
              message := "API request failed: " ++ "connect ECONNREFUSED",
              results := some [],
              nodes := some [⟨"s", "START", { status := "PASSED" }⟩,
                ⟨"a", "API", { status := "FAILED", url := some "https://x/ok" }⟩,
                ⟨"e", "EMAIL", { status := "IDLE", «to» := some "u@x.com" }⟩,
                ⟨"z", "END", { status := "IDLE" }⟩] },
        [("s", []), ("a", [("s", simplePayload)])]) ∧
      "e" ∉ ([("s", []), ("a", [("s", simplePayload)])].map
        (Prod.fst (α := String) (β := Ctx)))) :=
  ⟨Or.inl rfl,
    apiFailureAborts httpErr (some "https://x/ok") none "connect ECONNREFUSED" 8 (Or.inl rfl)⟩

end Workflow

namespace Workflow

/-- The chain Start(s) → SendEmail(n1) → TextAnnotation(n2) → End(z), with
the two middle nodes' config data left as parameters. -/
def wfChain (d1 d2 : NodeData) : Workflow :=
  ⟨[⟨"s", "START", {}⟩, ⟨"n1", "EMAIL", d1⟩, ⟨"n2", "TEXT", d2⟩, ⟨"z", "END", {}⟩],
    [⟨"c1", "s", "n1"⟩, ⟨"c2", "n1", "n2"⟩, ⟨"c3", "n2", "z"⟩]⟩

/-- Start(s) with two CONDITION children b1, b2 in stored edge order. -/
def wfBranch : Workflow :=
  ⟨[⟨"s", "START", {}⟩, ⟨"b1", "CONDITION", {}⟩, ⟨"b2", "CONDITION", {}⟩],
    [⟨"c1", "s", "b1"⟩, ⟨"c2", "s", "b2"⟩]⟩

/-- C5: the context is threaded as a value along each path. In the
three-step chain, every node's received context (recorded in the log)
contains exactly the entries of its ancestors — the End node receives the
accumulated payload keyed by every ancestor id, including the immediate
predecessor's TEXT payload. In the two-branch graph, the sibling b2's
received context holds only the shared ancestor's entry — b1's result is
invisible to b2 (child merges never flow back into the parent's context). -/
theorem contextThreading (http : Http) (d1 d2 : NodeData) :
    (executeWorkflow http 10 (wfChain d1 d2)).map
        (Prod.snd (α := RunResult) (β := List (String × Ctx))) =
      some [("s", []),
        ("n1", [("s", simplePayload)]),
        ("n2", [("s", simplePayload),
          ("n1", emailPayload ⟨"n1", "EMAIL", d1⟩ [("s", simplePayload)])]),
        ("z", [("s", simplePayload),
          ("n1", emailPayload ⟨"n1", "EMAIL", d1⟩ [("s", simplePayload)]),
          ("n2", textPayload ⟨"n2", "TEXT", d2⟩)])] ∧
    (executeWorkflow http 10 wfBranch).map
        (Prod.snd (α := RunResult) (β := List (String × Ctx))) =
      some [("s", []), ("b1", [("s", simplePayload)]), ("b2", [("s", simplePayload)])] ∧
    List.lookup "b1" [(("s" : String), simplePayload)] = none :=
  ⟨rfl, rfl, rfl⟩

/-- The id components of a run's log: the visitation order. -/
def logIds (p : RunResult × List (String × Ctx)) : List String :=
  p.2.map Prod.fst

/-- Start(s) → {TextAnnotation(b1), SendEmail(b2)} with edges stored in the
order s→b1, s→b2. -/
def wfForkAB : Workflow :=
  ⟨[⟨"s", "START", {}⟩, ⟨"b1", "TEXT", {}⟩, ⟨"b2", "EMAIL", {}⟩],
    [⟨"c1", "s", "b1"⟩, ⟨"c2", "s", "b2"⟩]⟩

/-- The same nodes as `wfForkAB` with the two edges stored in the opposite
order. -/
def wfForkBA : Workflow :=
  ⟨[⟨"s", "START", {}⟩, ⟨"b1", "TEXT", {}⟩, ⟨"b2", "EMAIL", {}⟩],
    [⟨"c2", "s", "b2"⟩, ⟨"c1", "s", "b1"⟩]⟩

/-- C6: execution is deterministic — the run is a pure function of the
graph and the (deterministic) step oracles, so identical inputs produce
structurally identical results — and sibling visitation order is exactly
the stored edge-list order, sequentially: with edges stored s→b1, s→b2 the
visit order is [s, b1, b2], and with the same edges stored in the opposite
order it is [s, b2, b1], for every oracle. -/
theorem deterministicOrder :
    (∀ (http : Http) (fuel : Nat) (wf wf' : Workflow), wf = wf' →
      executeWorkflow http fuel wf = executeWorkflow http fuel wf') ∧
    (∀ http : Http, (executeWorkflow http 10 wfForkAB).map logIds =
      some ["s", "b1", "b2"]) ∧
    (∀ http : Http, (executeWorkflow http 10 wfForkBA).map logIds =
      some ["s", "b2", "b1"]) :=
  ⟨fun _ _ _ _ h => by rw [h], fun _ => rfl, fun _ => rfl⟩

/-- C6 witness: determinism instantiated on two syntactically identical
copies of the concrete linear workflow. -/
theorem deterministicOrder_witness :
    wfLinear = wfLinear ∧
      executeWorkflow httpOk 10 wfLinear = executeWorkflow httpOk 10 wfLinear :=
  ⟨rfl, deterministicOrder.1 httpOk 10 wfLinear wfLinear rfl⟩

end Workflow

namespace Workflow

/-- The error of a step outcome, if any. -/
def errOf {α : Type} : Except RunError α → Option RunError
  | Except.error e => some e
  | Except.ok _ => none

/-- `n` with its `data.status` replaced — the effect of one
`nodes[i].data.status = s` assignment on the element. -/
def markNode (n : Node) (s : String) : Node :=
  { n with data := { n.data with status := s } }

/-- How one node of the array may change across a stretch of execution that
visited the ids in `visited` and ended in `e?` (`none` = no error): it is
untouched, or it was visited and stamped PASSED, or it was visited, is the
node the final error is attributed to, and was stamped FAILED. -/
def NodeEvol (visited : List String) (e? : Option RunError) (n n' : Node) : Prop :=
  n' = n ∨ (n.id ∈ visited ∧
    (n' = markNode n "PASSED" ∨
      (∃ err, e? = some err ∧ err.nodeId = n.id ∧ n' = markNode n "FAILED")))

/-- Invariant connecting the engine state before and after a stretch of
execution with outcome `e?`:
* the log grows by a suffix `suff` (execution only appends);
* each node evolves per `NodeEvol` over the visited ids;
* on error: if the failing id existed at entry, it is the last id of the
  final log (nothing executed after the failure), and if it did not exist,
  the error is the NodeNotFound error with its message;
* every visited id resolves (first-by-id) to a node that is PASSED, or is a
  START-typed node (whose switch case stamps nothing), or is the id the
  final error is attributed to. -/
def Evolves (st st' : EngineState) (e? : Option RunError) : Prop :=
  ∃ suff, st'.log = st.log ++ suff ∧
    List.Forall₂ (NodeEvol (suff.map Prod.fst) e?) st.nodes st'.nodes ∧
    (∀ err, e? = some err →
      ((firstById st.nodes err.nodeId).isSome →
        (st'.log.map Prod.fst).getLast? = some err.nodeId) ∧
      (firstById st.nodes err.nodeId = none →
        err.message = "Node " ++ err.nodeId ++ " not found")) ∧
    (∀ id ∈ suff.map Prod.fst, ∃ n', firstById st'.nodes id = some n' ∧
      (n'.data.status = "PASSED" ∨ n'.type = "START" ∨
        (∃ err, e? = some err ∧ err.nodeId = id)))

theorem markNode_id (n : Node) (s : String) : (markNode n s).id = n.id := rfl

theorem markNode_type (n : Node) (s : String) : (markNode n s).type = n.type := rfl

theorem markNode_markNode (n : Node) (s t : String) :
    markNode (markNode n s) t = markNode n t := rfl

/-- `NodeEvol` preserves id and type. -/
theorem NodeEvol.id_type {v e n n'} (h : NodeEvol v e n n') :
    n'.id = n.id ∧ n'.type = n.type := by
  rcases h with rfl | ⟨-, rfl | ⟨err, -, -, rfl⟩⟩ <;> exact ⟨rfl, rfl⟩

/-- `NodeEvol` is monotone in the visited list and upgrades from the
error-free case to any outcome. -/
theorem NodeEvol.mono {v v' e n n'} (h : NodeEvol v none n n') (hv : v ⊆ v') :
    NodeEvol v' e n n' := by
  rcases h with rfl | ⟨hm, hp | ⟨err, herr, -, -⟩⟩
  · exact Or.inl rfl
  · exact Or.inr ⟨hv hm, Or.inl hp⟩
  · exact Option.noConfusion herr

/-- Composition of per-node evolutions (the first stretch error-free). -/
theorem nodeEvol_comp {v₁ v₂ e n n' n''} (h₁ : NodeEvol v₁ none n n')
    (h₂ : NodeEvol v₂ e n' n'') : NodeEvol (v₁ ++ v₂) e n n'' := by
  rcases h₁ with rfl | ⟨hm₁, hp₁ | ⟨err, herr, -, -⟩⟩
  · rcases h₂ with rfl | ⟨hm₂, hp₂ | ⟨err, herr, hid, hf⟩⟩
    · exact Or.inl rfl
    · exact Or.inr ⟨List.mem_append_right _ hm₂, Or.inl hp₂⟩
    · exact Or.inr ⟨List.mem_append_right _ hm₂, Or.inr ⟨err, herr, hid, hf⟩⟩
  · rcases h₂ with rfl | ⟨hm₂, hp₂ | ⟨err, herr, hid, hf⟩⟩
    · exact Or.inr ⟨List.mem_append_left _ hm₁, Or.inl hp₁⟩
    · subst hp₁
      exact Or.inr ⟨List.mem_append_left _ hm₁,
        Or.inl (by rw [hp₂, markNode_markNode])⟩
    · subst hp₁
      refine Or.inr ⟨List.mem_append_left _ hm₁,
        Or.inr ⟨err, herr, ?_, by rw [hf, markNode_markNode]⟩⟩
      rw [hid, markNode_id]
  · exact Option.noConfusion herr

/-- Pointwise `Forall₂` composition of node evolutions. -/
theorem forall₂_nodeEvol_trans {v₁ v₂ e} : ∀ {l₁ l₂ l₃ : List Node},
    List.Forall₂ (NodeEvol v₁ none) l₁ l₂ → List.Forall₂ (NodeEvol v₂ e) l₂ l₃ →
    List.Forall₂ (NodeEvol (v₁ ++ v₂) e) l₁ l₃ := by
  intro l₁ l₂ l₃ h₁
  induction h₁ generalizing l₃ with
  | nil => intro h₂; cases h₂; exact List.Forall₂.nil
  | cons hR _ ih =>
    intro h₂
    cases h₂ with
    | cons hR' hrest' => exact List.Forall₂.cons (nodeEvol_comp hR hR') (ih hrest')

/-- A `Forall₂` of evolutions transfers first-by-id lookups: both sides
resolve the same ids, to related nodes. -/
theorem forall₂_firstById {v e} : ∀ {ns ns' : List Node},
    List.Forall₂ (NodeEvol v e) ns ns' → ∀ id,
    (firstById ns id = none ∧ firstById ns' id = none) ∨
    (∃ n n', firstById ns id = some n ∧ firstById ns' id = some n' ∧
      NodeEvol v e n n') := by
  intro ns ns' h id
  induction h with
  | nil => exact Or.inl ⟨rfl, rfl⟩
  | @cons a b l₁ l₂ hR hrest ih =>
    by_cases hid : (a.id == id) = true
    · refine Or.inr ⟨a, b, ?_, ?_, hR⟩
      · exact List.find?_cons_of_pos _ hid
      · exact List.find?_cons_of_pos _ (by rw [hR.id_type.1]; exact hid)
    · have hid' : (b.id == id) = false := by
        rw [hR.id_type.1]; exact Bool.eq_false_iff.mpr hid
      have e1 : firstById (a :: l₁) id = firstById l₁ id := by
        unfold firstById
        rw [List.find?_cons_of_neg]
        exact hid
      have e2 : firstById (b :: l₂) id = firstById l₂ id := by
        unfold firstById
        rw [List.find?_cons_of_neg]
        simp [hid']
      rw [e1, e2]
      exact ih

/-- A `Forall₂` pairs every member of the right list with a member of the
left list. -/
theorem forall₂_mem_right {α β : Type} {R : α → β → Prop} : ∀ {l : List α} {l' : List β},
    List.Forall₂ R l l' → ∀ b ∈ l', ∃ a ∈ l, R a b := by
  intro l l' h
  induction h with
  | nil => intro b hb; cases hb
  | cons hR _ ih =>
    intro b hb
    rcases List.mem_cons.mp hb with rfl | hb'
    · exact ⟨_, List.mem_cons_self _ _, hR⟩
    · obtain ⟨a, ha, hab⟩ := ih b hb'
      exact ⟨a, List.mem_cons_of_mem _ ha, hab⟩

/-- `find?` by id returns a node carrying that id. -/
theorem firstById_id {ns : List Node} {id : String} {n : Node}
    (h : firstById ns id = some n) : n.id = id := by
  have := List.find?_some h
  exact eq_of_beq this

end Workflow

namespace Workflow

/-- Reflexive evolution. -/
theorem forall₂_nodeEvol_refl (v : List String) (e : Option RunError) (ns : List Node) :
    List.Forall₂ (NodeEvol v e) ns ns :=
  List.forall₂_same.mpr fun _ _ => Or.inl rfl

/-- Stamping PASSED on a visited id is a valid evolution. -/
theorem setStatusAt_passed_forall₂ (v : List String) (e : Option RunError)
    (ns : List Node) (id : String) (hmem : id ∈ v) :
    List.Forall₂ (NodeEvol v e) ns (setStatusAt ns id "PASSED") := by
  induction ns with
  | nil => exact List.Forall₂.nil
  | cons n rest ih =>
    unfold setStatusAt
    by_cases h : (n.id == id) = true
    · rw [if_pos h]
      exact List.Forall₂.cons
        (Or.inr ⟨by rw [eq_of_beq h]; exact hmem, Or.inl rfl⟩)
        (forall₂_nodeEvol_refl v e rest)
  

    · rw [if_neg h]
      exact List.Forall₂.cons (Or.inl rfl) ih

/-- Stamping FAILED on the visited id the error is attributed to is a valid
evolution. -/
theorem setStatusAt_failed_forall₂ (v : List String) (err : RunError)
    (ns : List Node) (hmem : err.nodeId ∈ v) :
    List.Forall₂ (NodeEvol v (some err)) ns (setStatusAt ns err.nodeId "FAILED") := by
  induction ns with
  | nil => exact List.Forall₂.nil
  | cons n rest ih =>
    unfold setStatusAt
    by_cases h : (n.id == err.nodeId) = true
    · rw [if_pos h]
      exact List.Forall₂.cons
        (Or.inr ⟨by rw [eq_of_beq h]; exact hmem,
          Or.inr ⟨err, rfl, (eq_of_beq h).symm, rfl⟩⟩)
        (forall₂_nodeEvol_refl v (some err) rest)
    · rw [if_neg h]
      exact List.Forall₂.cons (Or.inl rfl) ih

/-- `firstById` on a cons whose head matches. -/
theorem firstById_cons_pos {m : Node} {rest : List Node} {id : String}
    (hb : (m.id == id) = true) : firstById (m :: rest) id = some m := by
  unfold firstById
  exact List.find?_cons_of_pos _ hb

/-- `firstById` on a cons whose head does not match. -/
theorem firstById_cons_neg {m : Node} {rest : List Node} {id : String}
    (hb : ¬(m.id == id) = true) : firstById (m :: rest) id = firstById rest id := by
  unfold firstById
  exact List.find?_cons_of_neg _ hb

/-- Stamping an id that no node carries is a no-op. -/
theorem setStatusAt_absent (ns : List Node) (id s : String)
    (h : firstById ns id = none) : setStatusAt ns id s = ns := by
  induction ns with
  | nil => rfl
  | cons n rest ih =>
    unfold setStatusAt
    by_cases hb : (n.id == id) = true
    · rw [firstById_cons_pos hb] at h
      exact Option.noConfusion h
    · rw [if_neg hb]
      congr 1
      exact ih (by rwa [firstById_cons_neg hb] at h)

/-- Stamping the first node with an id updates exactly what `find?` by that
id then returns. -/
theorem firstById_setStatusAt (ns : List Node) (id s : String) (n : Node)
    (h : firstById ns id = some n) :
    firstById (setStatusAt ns id s) id = some (markNode n s) := by
  induction ns with
  | nil => exact Option.noConfusion h
  | cons m rest ih =>
    by_cases hb : (m.id == id) = true
    · rw [firstById_cons_pos hb] at h
      injection h with h
      subst h
      unfold setStatusAt
      rw [if_pos hb]
      exact firstById_cons_pos (by exact hb)
    · unfold setStatusAt
      rw [if_neg hb]
      rw [firstById_cons_neg hb] at h
      rw [firstById_cons_neg hb]
      exact ih h

/-- The empty evolution. -/
theorem evolves_refl (st : EngineState) : Evolves st st none :=
  ⟨[], by simp, forall₂_nodeEvol_refl _ _ _,
    fun _ h => Option.noConfusion h,
    fun _ h => absurd h (List.not_mem_nil _)⟩

/-- Entering a START node: log the visit, stamp nothing. -/
theorem evolves_entry_start (st : EngineState) (nodeId : String) (ctx : Ctx)
    (node : Node) (hf : firstById st.nodes nodeId = some node)
    (ht : node.type = "START") :
    Evolves st ⟨st.nodes, st.log ++ [(nodeId, ctx)]⟩ none := by
  refine ⟨[(nodeId, ctx)], rfl, forall₂_nodeEvol_refl _ _ _,
    fun _ h => Option.noConfusion h, ?_⟩
  intro id hid
  simp only [List.map_cons, List.map_nil, List.mem_singleton] at hid
  subst hid
  exact ⟨node, hf, Or.inr (Or.inl ht)⟩

/-- Entering a node whose case stamps PASSED: log the visit, stamp PASSED. -/
theorem evolves_entry_mark (st : EngineState) (nodeId : String) (ctx : Ctx)
    (node : Node) (hf : firstById st.nodes nodeId = some node) :
    Evolves st ⟨setStatusAt st.nodes nodeId "PASSED", st.log ++ [(nodeId, ctx)]⟩ none := by
  refine ⟨[(nodeId, ctx)], rfl,
    setStatusAt_passed_forall₂ _ _ _ _ (by simp),
    fun _ h => Option.noConfusion h, ?_⟩
  intro id hid
  simp only [List.map_cons, List.map_nil, List.mem_singleton] at hid
  subst hid
  exact ⟨markNode node "PASSED", firstById_setStatusAt _ _ _ _ hf, Or.inl rfl⟩

/-- Entering a node whose case stamps FAILED and throws: log the visit,
stamp FAILED, attribute the error to this id. -/
theorem evolves_entry_fail (st : EngineState) (nodeId : String) (ctx : Ctx)
    (node : Node) (msg : String) (hf : firstById st.nodes nodeId = some node) :
    Evolves st ⟨setStatusAt st.nodes nodeId "FAILED", st.log ++ [(nodeId, ctx)]⟩
      (some ⟨nodeId, msg⟩) := by
  refine ⟨[(nodeId, ctx)], rfl,
    setStatusAt_failed_forall₂ _ ⟨nodeId, msg⟩ _ (by simp),
    ?_, ?_⟩
  · intro err herr
    injection herr with herr
    subst herr
    constructor
    · intro _
      simp only [List.map_append, List.map_cons, List.map_nil]
      exact List.getLast?_concat _
    · intro hnone
      rw [hf] at hnone
      exact Option.noConfusion hnone
  · intro id hid
    simp only [List.map_cons, List.map_nil, List.mem_singleton] at hid
    subst hid
    exact ⟨markNode node "FAILED", firstById_setStatusAt _ _ _ _ hf,
      Or.inr (Or.inr ⟨⟨id, msg⟩, rfl, rfl⟩)⟩

/-- A missing node id: nothing changes, the NodeNotFound error is thrown. -/
theorem evolves_notfound (st : EngineState) (nodeId : String)
    (hf : firstById st.nodes nodeId = none) :
    Evolves st st (some ⟨nodeId, "Node " ++ nodeId ++ " not found"⟩) := by
  refine ⟨[], by simp, forall₂_nodeEvol_refl _ _ _, ?_,
    fun _ h => absurd h (List.not_mem_nil _)⟩
  intro err herr
  injection herr with herr
  subst herr
  constructor
  · intro hsome
    rw [hf] at hsome
    exact absurd hsome (by simp)
  · intro _
    rfl

/-- Evolutions compose (the first stretch error-free). -/
theorem evolves_comp {st₁ st₂ st₃ : EngineState} {e : Option RunError}
    (h₁ : Evolves st₁ st₂ none) (h₂ : Evolves st₂ st₃ e) : Evolves st₁ st₃ e := by
  obtain ⟨s₁, hl₁, hfa₁, _, he₁⟩ := h₁
  obtain ⟨s₂, hl₂, hfa₂, hd₂, he₂⟩ := h₂
  refine ⟨s₁ ++ s₂, ?_, ?_, ?_, ?_⟩
  · rw [hl₂, hl₁, List.append_assoc]
  · rw [List.map_append]
    exact forall₂_nodeEvol_trans hfa₁ hfa₂
  · intro err herr
    obtain ⟨hd₂a, hd₂b⟩ := hd₂ err herr
    constructor
    · intro hsome
      apply hd₂a
      rcases forall₂_firstById hfa₁ err.nodeId with ⟨ha, hb⟩ | ⟨n, n', _, hb, _⟩
      · rw [ha] at hsome
        exact absurd hsome (by simp)
      · rw [hb]
        simp
    · intro hnone
      apply hd₂b
      rcases forall₂_firstById hfa₁ err.nodeId with ⟨_, hb⟩ | ⟨n, n', ha, _, _⟩
      · exact hb
      · rw [ha] at hnone
        exact Option.noConfusion hnone
  · intro id hid
    rw [List.map_append] at hid
    rcases List.mem_append.mp hid with hid₁ | hid₂
    · obtain ⟨n', hfnd, hstat⟩ := he₁ id hid₁
      rcases forall₂_firstById hfa₂ id with ⟨ha, _⟩ | ⟨m, m', ha, hb, hR⟩
      · rw [ha] at hfnd
        exact Option.noConfusion hfnd
      · rw [ha] at hfnd
        injection hfnd with hmn
        subst hmn
        refine ⟨m', hb, ?_⟩
        rcases hstat with hp | hs | ⟨err, herr, _⟩
        · rcases hR with rfl | ⟨_, rfl | ⟨err, herr, hid', rfl⟩⟩
          · exact Or.inl hp
          · exact Or.inl rfl
          · exact Or.inr (Or.inr ⟨err, herr, by rw [hid', firstById_id ha]⟩)
        · exact Or.inr (Or.inl (by rw [hR.id_type.2]; exact hs))
        · exact Option.noConfusion herr
    · exact he₂ id hid₂

/-- The children loop preserves the evolution invariant. -/
theorem runList_evolves
    (step : String → EngineState → Option (EngineState × Except RunError Ctx))
    (hstep : ∀ t s s' r, step t s = some (s', r) → Evolves s s' (errOf r)) :
    ∀ (l : List Edge) (st st' : EngineState) (u : Except RunError Unit),
      runList step l st = some (st', u) → Evolves st st' (errOf u) := by
  intro l
  induction l with
  | nil =>
    intro st st' u h
    unfold runList at h
    injection h with h'
    injection h' with h1 h2
    subst h1
    subst h2
    exact evolves_refl st
  | cons e rest ih =>
    intro st st' u h
    unfold runList at h
    cases hs : step e.target st with
    | none =>
      rw [hs] at h
      exact Option.noConfusion h
    | some p =>
      obtain ⟨s₁, r⟩ := p
      rw [hs] at h
      cases r with
      | error err =>
        dsimp only at h
        injection h with h'
        injection h' with h1 h2
        subst h1
        subst h2
        exact hstep e.target st s₁ (Except.error err) hs
      | ok c =>
        dsimp only at h
        have h₁ : Evolves st s₁ none := hstep e.target st s₁ (Except.ok c) hs
        exact evolves_comp h₁ (ih s₁ st' u h)

end Workflow

namespace Workflow

/-- Evolution across "run the children loop, then return own context". -/
theorem withChildren_evolves
    {step : String → EngineState → Option (EngineState × Except RunError Ctx)}
    {st st₂ st' : EngineState} {u : Ctx} {res : Except RunError Ctx} {l : List Edge}
    (hpre : Evolves st st₂ none)
    (hstep : ∀ t s s' r, step t s = some (s', r) → Evolves s s' (errOf r))
    (h : withChildren u (runList step l st₂) = some (st', res)) :
    Evolves st st' (errOf res) := by
  unfold withChildren at h
  cases hr : runList step l st₂ with
  | none =>
    rw [hr] at h
    exact Option.noConfusion h
  | some p =>
    obtain ⟨s₂, ru⟩ := p
    rw [hr] at h
    cases ru with
    | error err =>
      dsimp only at h
      injection h with h'
      injection h' with h1 h2
      subst h1
      subst h2
      exact evolves_comp hpre (runList_evolves step hstep l st₂ s₂ (Except.error err) hr)
    | ok uu =>
      dsimp only at h
      injection h with h'
      injection h' with h1 h2
      subst h1
      subst h2
      exact evolves_comp hpre (runList_evolves step hstep l st₂ s₂ (Except.ok uu) hr)

/-- The children loop only appends to the log. -/
theorem withChildren_log
    {step : String → EngineState → Option (EngineState × Except RunError Ctx)}
    {st₂ st' : EngineState} {u : Ctx} {res : Except RunError Ctx} {l : List Edge}
    (hstep : ∀ t s s' r, step t s = some (s', r) → Evolves s s' (errOf r))
    (h : withChildren u (runList step l st₂) = some (st', res)) :
    ∃ suff, st'.log = st₂.log ++ suff := by
  unfold withChildren at h
  cases hr : runList step l st₂ with
  | none =>
    rw [hr] at h
    exact Option.noConfusion h
  | some p =>
    obtain ⟨s₂, ru⟩ := p
    rw [hr] at h
    have hev := runList_evolves step hstep l st₂ s₂ ru hr
    obtain ⟨suff, hl, -⟩ := hev
    cases ru with
    | error err =>
      dsimp only at h
      injection h with h'
      injection h' with h1 h2
      subst h1
      exact ⟨suff, hl⟩
    | ok uu =>
      dsimp only at h
      injection h with h'
      injection h' with h1 h2
      subst h1
      exact ⟨suff, hl⟩

/-- Main invariant of `executeNode`: every terminating call evolves the
state per `Evolves` with the call's outcome, and, when the node id
resolves, the log gained this visit first. -/
theorem executeNode_evolves (http : Http) (edges : List Edge) : ∀ (fuel : Nat)
    (nodeId : String) (st : EngineState) (ctx : Ctx) (st' : EngineState)
    (res : Except RunError Ctx),
    executeNode http edges fuel nodeId st ctx = some (st', res) →
    Evolves st st' (errOf res) ∧
      (∀ node, firstById st.nodes nodeId = some node →
        ∃ tail, st'.log = st.log ++ (nodeId, ctx) :: tail) := by
  intro fuel
  induction fuel with
  | zero =>
    intro nodeId st ctx st' res h
    simp [executeNode] at h
  | succ fuel ih =>
    intro nodeId st ctx st' res h
    cases hf : firstById st.nodes nodeId with
    | none =>
      simp only [executeNode, hf] at h
      injection h with h'
      injection h' with h1 h2
      subst h1
      subst h2
      refine ⟨evolves_notfound st nodeId hf, ?_⟩
      intro node hnode
      exact Option.noConfusion hnode
    | some node =>
      simp only [executeNode, hf] at h
      have hstep : ∀ (u : Ctx) t s s' r,
          executeNode http edges fuel t s u = some (s', r) → Evolves s s' (errOf r) :=
        fun u t s s' r hh => (ih t s u s' r hh).1
      by_cases hSTART : node.type = "START"
      · rw [if_pos hSTART] at h
        refine ⟨withChildren_evolves (evolves_entry_start st nodeId ctx node hf hSTART)
          (fun t s s' r hh => hstep _ t s s' r hh) h, ?_⟩
        intro node' _
        obtain ⟨suff, hl⟩ := withChildren_log (fun t s s' r hh => hstep _ t s s' r hh) h
        exact ⟨suff, by rw [hl]; simp⟩
      · rw [if_neg hSTART] at h
        by_cases hAPI : node.type = "API"
        · rw [if_pos hAPI] at h
          cases hh : http (jsOr node.data.url "") (jsOr node.data.method "GET") with
          | jsonResponse status body =>
            rw [hh] at h
            dsimp only at h
            refine ⟨withChildren_evolves (evolves_entry_mark st nodeId ctx node hf)
              (fun t s s' r hh2 => hstep _ t s s' r hh2) h, ?_⟩
            intro node' _
            obtain ⟨suff, hl⟩ :=
              withChildren_log (fun t s s' r hh2 => hstep _ t s s' r hh2) h
            exact ⟨suff, by rw [hl]; simp⟩
          | transportError m =>
            rw [hh] at h
            dsimp only at h
            injection h with h'
            injection h' with h1 h2
            subst h1
            subst h2
            exact ⟨evolves_entry_fail st nodeId ctx node _ hf,
              fun _ _ => ⟨[], by simp⟩⟩
          | invalidJson status m =>
            rw [hh] at h
            dsimp only at h
            injection h with h'
            injection h' with h1 h2
            subst h1
            subst h2
            exact ⟨evolves_entry_fail st nodeId ctx node _ hf,
              fun _ _ => ⟨[], by simp⟩⟩
        · rw [if_neg hAPI] at h
          by_cases hEMAIL : node.type = "EMAIL"
          · rw [if_pos hEMAIL] at h
            refine ⟨withChildren_evolves (evolves_entry_mark st nodeId ctx node hf)
              (fun t s s' r hh => hstep _ t s s' r hh) h, ?_⟩
            intro node' _
            obtain ⟨suff, hl⟩ :=
              withChildren_log (fun t s s' r hh => hstep _ t s s' r hh) h
            exact ⟨suff, by rw [hl]; simp⟩
          · rw [if_neg hEMAIL] at h
            by_cases hTEXT : node.type = "TEXT"
            · rw [if_pos hTEXT] at h
              refine ⟨withChildren_evolves (evolves_entry_mark st nodeId ctx node hf)
                (fun t s s' r hh => hstep _ t s s' r hh) h, ?_⟩
              intro node' _
              obtain ⟨suff, hl⟩ :=
                withChildren_log (fun t s s' r hh => hstep _ t s s' r hh) h
              exact ⟨suff, by rw [hl]; simp⟩
            · rw [if_neg hTEXT] at h
              by_cases hCOND : node.type = "CONDITION"
              · rw [if_pos hCOND] at h
                refine ⟨withChildren_evolves (evolves_entry_mark st nodeId ctx node hf)
                  (fun t s s' r hh => hstep _ t s s' r hh) h, ?_⟩
                intro node' _
                obtain ⟨suff, hl⟩ :=
                  withChildren_log (fun t s s' r hh => hstep _ t s s' r hh) h
                exact ⟨suff, by rw [hl]; simp⟩
              · rw [if_neg hCOND] at h
                by_cases hEND : node.type = "END"
                · rw [if_pos hEND] at h
                  injection h with h'
                  injection h' with h1 h2
                  subst h1
                  subst h2
                  exact ⟨evolves_entry_mark st nodeId ctx node hf,
                    fun _ _ => ⟨[], by simp⟩⟩
                · rw [if_neg hEND] at h
                  injection h with h'
                  injection h' with h1 h2
                  subst h1
                  subst h2
                  exact ⟨evolves_entry_fail st nodeId ctx node _ hf,
                    fun _ _ => ⟨[], by simp⟩⟩

end Workflow

namespace Workflow

/-- Membership in a stamped list: untouched, or the stamped first match. -/
theorem setStatusAt_mem {ns : List Node} {id s : String} :
    ∀ n' ∈ setStatusAt ns id s, n' ∈ ns ∨ ∃ m ∈ ns, m.id = id ∧ n' = markNode m s := by
  induction ns with
  | nil => intro n' h; cases h
  | cons m rest ih =>
    intro n' h
    unfold setStatusAt at h
    by_cases hb : (m.id == id) = true
    · rw [if_pos hb] at h
      rcases List.mem_cons.mp h with rfl | h'
      · exact Or.inr ⟨m, List.mem_cons_self _ _, eq_of_beq hb, rfl⟩
      · exact Or.inl (List.mem_cons_of_mem _ h')
    · rw [if_neg hb] at h
      rcases List.mem_cons.mp h with rfl | h'
      · exact Or.inl (List.mem_cons_self _ _)
      · rcases ih n' h' with h'' | ⟨p, hp, hpid, hpn⟩
        · exact Or.inl (List.mem_cons_of_mem _ h'')
        · exact Or.inr ⟨p, List.mem_cons_of_mem _ hp, hpid, hpn⟩

/-- Membership in the all-IDLE pass. -/
theorem allIdle_mem {ns : List Node} :
    ∀ n ∈ allIdle ns, ∃ m ∈ ns, n = markNode m "IDLE" := by
  intro n h
  obtain ⟨m, hm, hn⟩ := List.mem_map.mp h
  exact ⟨m, hm, hn.symm⟩

/-- What a node of the initialized array looks like. -/
theorem initNodes_mem {ns : List Node} {sid : String} :
    ∀ n ∈ initNodes ns sid, ∃ m ∈ ns, n.id = m.id ∧ n.type = m.type ∧
      (n.data.status = "IDLE" ∨ (n.data.status = "PASSED" ∧ n.id = sid)) := by
  intro n h
  rcases setStatusAt_mem n h with h' | ⟨p, hp, hpid, rfl⟩
  · obtain ⟨m, hm, rfl⟩ := allIdle_mem _ h'
    exact ⟨m, hm, rfl, rfl, Or.inl rfl⟩
  · obtain ⟨m, hm, rfl⟩ := allIdle_mem _ hp
    exact ⟨m, hm, rfl, rfl, Or.inr ⟨rfl, hpid⟩⟩

/-- `firstById` succeeds exactly on ids present in the array. -/
theorem firstById_isSome_iff {ns : List Node} {id : String} :
    (firstById ns id).isSome ↔ id ∈ ns.map Node.id := by
  unfold firstById
  rw [List.find?_isSome, List.mem_map]
  constructor
  · rintro ⟨x, hx, hpx⟩
    exact ⟨x, hx, eq_of_beq hpx⟩
  · rintro ⟨x, hx, hid⟩
    exact ⟨x, hx, by rw [hid]; exact beq_self_eq_true id⟩

theorem setStatusAt_map_id (ns : List Node) (id s : String) :
    (setStatusAt ns id s).map Node.id = ns.map Node.id := by
  induction ns with
  | nil => rfl
  | cons m rest ih =>
    unfold setStatusAt
    by_cases hb : (m.id == id) = true
    · rw [if_pos hb]
      simp [markNode_id]
    · rw [if_neg hb]
      simp [ih]

theorem allIdle_map_id (ns : List Node) : (allIdle ns).map Node.id = ns.map Node.id := by
  unfold allIdle
  rw [List.map_map]
  rfl

theorem initNodes_map_id (ns : List Node) (sid : String) :
    (initNodes ns sid).map Node.id = ns.map Node.id := by
  unfold initNodes
  rw [setStatusAt_map_id, allIdle_map_id]

/-- `find?` by id commutes with the all-IDLE pass. -/
theorem allIdle_firstById {ns : List Node} {id : String} {m : Node}
    (h : firstById ns id = some m) :
    firstById (allIdle ns) id = some (markNode m "IDLE") := by
  induction ns with
  | nil => exact Option.noConfusion h
  | cons p rest ih =>
    by_cases hb : (p.id == id) = true
    · rw [firstById_cons_pos hb] at h
      injection h with h
      subst h
      exact firstById_cons_pos (by exact hb)
    · rw [firstById_cons_neg hb] at h
      have : firstById (allIdle rest) id = some (markNode m "IDLE") := ih h
      unfold allIdle at this ⊢
      rw [List.map_cons]
      rw [firstById_cons_neg (by exact hb)]
      exact this

/-- The first node carrying the start id in the initialized array is the
PASSED-stamped one. -/
theorem initNodes_firstById {ns : List Node} {sid : String} {m : Node}
    (h : firstById ns sid = some m) :
    firstById (initNodes ns sid) sid = some (markNode m "PASSED") := by
  unfold initNodes
  rw [firstById_setStatusAt _ _ _ _ (allIdle_firstById h), markNode_markNode]

/-- Node evolution composes even when both stretches carry the error. -/
theorem NodeEvol.trans_err {v : List String} {e : Option RunError} {n n' n'' : Node}
    (h₁ : NodeEvol v e n n') (h₂ : NodeEvol v e n' n'') : NodeEvol v e n n'' := by
  rcases h₁ with rfl | ⟨hm₁, rfl | ⟨err₁, herr₁, hid₁, rfl⟩⟩
  · exact h₂
  · rcases h₂ with rfl | ⟨hm₂, rfl | ⟨err₂, herr₂, hid₂, rfl⟩⟩
    · exact Or.inr ⟨hm₁, Or.inl rfl⟩
    · exact Or.inr ⟨hm₁, Or.inl (markNode_markNode ..)⟩
    · exact Or.inr ⟨hm₁, Or.inr ⟨err₂, herr₂, by rw [hid₂, markNode_id],
        markNode_markNode ..⟩⟩
  · rcases h₂ with rfl | ⟨hm₂, rfl | ⟨err₂, herr₂, hid₂, rfl⟩⟩
    · exact Or.inr ⟨hm₁, Or.inr ⟨err₁, herr₁, hid₁, rfl⟩⟩
    · exact Or.inr ⟨hm₁, Or.inl (markNode_markNode ..)⟩
    · exact Or.inr ⟨hm₁, Or.inr ⟨err₂, herr₂, by rw [hid₂, markNode_id],
        markNode_markNode ..⟩⟩

theorem forall₂_nodeEvol_trans_err {v : List String} {e : Option RunError} :
    ∀ {l₁ l₂ l₃ : List Node}, List.Forall₂ (NodeEvol v e) l₁ l₂ →
    List.Forall₂ (NodeEvol v e) l₂ l₃ → List.Forall₂ (NodeEvol v e) l₁ l₃ := by
  intro l₁ l₂ l₃ h₁
  induction h₁ generalizing l₃ with
  | nil => intro h₂; cases h₂; exact List.Forall₂.nil
  | cons hR _ ih =>
    intro h₂
    cases h₂ with
    | cons hR' hrest' => exact List.Forall₂.cons (hR.trans_err hR') (ih hrest')

end Workflow

namespace Workflow

/-- C3: whenever a step fails, the whole run aborts at that step.
`executeWorkflow` returns `success=false` carrying that step's error text;
the failing node (when a node with that id exists, and the id is truthy) is
FAILED in the returned list; the log ends at the failing node — no sibling
or downstream step runs after it; and every node whose id was never visited
still has status IDLE in the returned list. -/
theorem stepFailureAbortsRun (http : Http) (fuel : Nat) (wf : Workflow)
    (s0 : Node) (st' : EngineState) (err : RunError)
    (hs0 : wf.nodes.find? (fun n => n.type == "START") = some s0)
    (hrun : executeNode http wf.edges fuel s0.id
      ⟨initNodes wf.nodes s0.id, []⟩ [] = some (st', Except.error err)) :
    executeWorkflow http fuel wf =
      some ({ success := false, message := err.message, results := some [],
              nodes := some (if err.nodeId = "" then st'.nodes
                else setStatusAt st'.nodes err.nodeId "FAILED") }, st'.log) ∧
    (∀ nf, err.nodeId ≠ "" → firstById st'.nodes err.nodeId = some nf →
      firstById (setStatusAt st'.nodes err.nodeId "FAILED") err.nodeId =
        some (markNode nf "FAILED") ∧ (markNode nf "FAILED").data.status = "FAILED") ∧
    ((firstById (initNodes wf.nodes s0.id) err.nodeId).isSome →
      (st'.log.map Prod.fst).getLast? = some err.nodeId) ∧
    (∀ n' ∈ (if err.nodeId = "" then st'.nodes
        else setStatusAt st'.nodes err.nodeId "FAILED"),
      n'.id ∉ st'.log.map Prod.fst → n'.data.status = "IDLE") := by
  obtain ⟨hev, hhead⟩ := executeNode_evolves http wf.edges fuel s0.id
    ⟨initNodes wf.nodes s0.id, []⟩ [] st' (Except.error err) hrun
  obtain ⟨suff, hlog, hfa, hd, he⟩ := hev
  have hlog' : st'.log = suff := by simpa using hlog
  refine ⟨?_, ?_, ?_, ?_⟩
  · unfold executeWorkflow
    rw [hs0]
    dsimp only
    rw [hrun]
  · intro nf hne hex
    exact ⟨firstById_setStatusAt _ _ _ _ hex, rfl⟩
  · intro hsome
    exact (hd err rfl).1 hsome
  · intro n' hn' hnot
    have hids : st'.log.map Prod.fst = suff.map Prod.fst := by rw [hlog']
    have hs0mem : s0 ∈ wf.nodes := List.mem_of_find?_eq_some hs0
    have hinit_some : (firstById (initNodes wf.nodes s0.id) s0.id).isSome := by
      rw [firstById_isSome_iff, initNodes_map_id]
      exact List.mem_map.mpr ⟨s0, hs0mem, rfl⟩
    obtain ⟨node₀, hnode₀⟩ := Option.isSome_iff_exists.mp hinit_some
    obtain ⟨tail, htail⟩ := hhead node₀ hnode₀
    have hs0log : s0.id ∈ st'.log.map Prod.fst := by
      rw [htail]
      simp
    have hfa' : List.Forall₂ (NodeEvol (st'.log.map Prod.fst) (some err))
        (initNodes wf.nodes s0.id) st'.nodes := by
      rw [hids]
      exact hfa
    have hfaR : List.Forall₂ (NodeEvol (st'.log.map Prod.fst) (some err))
        (initNodes wf.nodes s0.id) (if err.nodeId = "" then st'.nodes
          else setStatusAt st'.nodes err.nodeId "FAILED") := by
      by_cases hnil : err.nodeId = ""
      · rw [if_pos hnil]
        exact hfa'
      · rw [if_neg hnil]
        cases hex : firstById st'.nodes err.nodeId with
        | none =>
          rw [setStatusAt_absent _ _ _ hex]
          exact hfa'
        | some nf =>
          refine forall₂_nodeEvol_trans_err hfa' (setStatusAt_failed_forall₂ _ err _ ?_)
          rcases forall₂_firstById hfa' err.nodeId with ⟨ha, hb⟩ | ⟨n₁, n₂, ha, hb, hR⟩
          · rw [hex] at hb
            exact Option.noConfusion hb
          · have hsome : (firstById (initNodes wf.nodes s0.id) err.nodeId).isSome := by
              rw [ha]
              simp
            exact List.mem_of_getLast?_eq_some ((hd err rfl).1 hsome)
    obtain ⟨n₀, hn₀, hR⟩ := forall₂_mem_right hfaR n' hn'
    have hidEq := hR.id_type.1
    rcases hR with rfl | ⟨hmem, -⟩
    · obtain ⟨m, hm2, hid, htype, hstat⟩ := initNodes_mem n' hn₀
      rcases hstat with hIDLE | ⟨hPASS, hsid⟩
      · exact hIDLE
      · exact absurd (by rw [hsid]; exact hs0log) hnot
    · exact absurd (by rw [hidEq]; exact hmem) hnot

/-- A workflow whose second node has an unrecognized type. -/
def wfBogus : Workflow :=
  ⟨[⟨"s", "START", {}⟩, ⟨"x", "BOGUS", {}⟩], [⟨"e1", "s", "x"⟩]⟩

/-- The engine state after the failing run of `wfBogus`. -/
def stBogus : EngineState :=
  ⟨[⟨"s", "START", { status := "PASSED" }⟩, ⟨"x", "BOGUS", { status := "FAILED" }⟩],
    [("s", []), ("x", [("s", simplePayload)])]⟩

/-- C3 witness: the fail-fast theorem instantiated on a concrete run that
fails at an unknown-type node. -/
theorem stepFailureAbortsRun_witness :
    (wfBogus.nodes.find? (fun n => n.type == "START") = some ⟨"s", "START", {}⟩) ∧
    (executeNode httpUnused wfBogus.edges 5 "s" ⟨initNodes wfBogus.nodes "s", []⟩ [] =
      some (stBogus, Except.error ⟨"x", "Unknown node type: BOGUS"⟩)) ∧
    (executeWorkflow httpUnused 5 wfBogus =
      some ({ success := false, message := "Unknown node type: BOGUS",
              results := some [],
              nodes := some (if ("x" : String) = "" then stBogus.nodes
                else setStatusAt stBogus.nodes "x" "FAILED") }, stBogus.log)) ∧
    ((firstById (initNodes wfBogus.nodes "s") "x").isSome →
      (stBogus.log.map Prod.fst).getLast? = some "x") ∧
    (∀ n' ∈ (if ("x" : String) = "" then stBogus.nodes
        else setStatusAt stBogus.nodes "x" "FAILED"),
      n'.id ∉ stBogus.log.map Prod.fst → n'.data.status = "IDLE") := by
  have h := stepFailureAbortsRun httpUnused 5 wfBogus ⟨"s", "START", {}⟩ stBogus
    ⟨"x", "Unknown node type: BOGUS"⟩ rfl rfl
  exact ⟨rfl, rfl, h.1, h.2.2.1, h.2.2.2⟩

end Workflow

namespace Workflow

/-- C10: when a run fails because an edge's target id matches no node, the
result is `success=false` with message "Node <id> not found", but no node in
the returned list is FAILED — the catch block's `findIndex` misses, so
nodes visited before the dangling edge keep PASSED and all others keep IDLE
(assuming the graph's only START-typed nodes carry the start node's id). -/
theorem danglingEdgeNoFailedMark (http : Http) (fuel : Nat) (wf : Workflow)
    (s0 : Node) (st' : EngineState) (err : RunError)
    (hs0 : wf.nodes.find? (fun n => n.type == "START") = some s0)
    (hrun : executeNode http wf.edges fuel s0.id
      ⟨initNodes wf.nodes s0.id, []⟩ [] = some (st', Except.error err))
    (hdang : ∀ n ∈ wf.nodes, n.id ≠ err.nodeId)
    (huniq : ∀ n ∈ wf.nodes, n.type = "START" → n.id = s0.id) :
    executeWorkflow http fuel wf =
      some ({ success := false, message := "Node " ++ err.nodeId ++ " not found",
              results := some [], nodes := some st'.nodes }, st'.log) ∧
    (∀ n ∈ st'.nodes, n.data.status ≠ "FAILED") ∧
    (∀ id ∈ st'.log.map Prod.fst, ∃ n, firstById st'.nodes id = some n ∧
      n.data.status = "PASSED") ∧
    (∀ n ∈ st'.nodes, n.id ∉ st'.log.map Prod.fst → n.data.status = "IDLE") := by
  obtain ⟨hev, hhead⟩ := executeNode_evolves http wf.edges fuel s0.id
    ⟨initNodes wf.nodes s0.id, []⟩ [] st' (Except.error err) hrun
  obtain ⟨suff, hlog, hfa, hd, he⟩ := hev
  have hlog' : st'.log = suff := by simpa using hlog
  have hinit_none : firstById (initNodes wf.nodes s0.id) err.nodeId = none := by
    have hno : ¬(firstById (initNodes wf.nodes s0.id) err.nodeId).isSome := by
      rw [firstById_isSome_iff, initNodes_map_id]
      intro hmem
      obtain ⟨m, hm, hmid⟩ := List.mem_map.mp hmem
      exact hdang m hm hmid
    exact Option.not_isSome_iff_eq_none.mp hno
  have hmsg : err.message = "Node " ++ err.nodeId ++ " not found" :=
    (hd err rfl).2 hinit_none
  have hst'_none : firstById st'.nodes err.nodeId = none := by
    rcases forall₂_firstById hfa err.nodeId with ⟨ha, hb⟩ | ⟨n₁, n₂, ha, hb, hR⟩
    · exact hb
    · rw [hinit_none] at ha
      exact Option.noConfusion ha
  have hs0mem : s0 ∈ wf.nodes := List.mem_of_find?_eq_some hs0
  have hinit_some : (firstById (initNodes wf.nodes s0.id) s0.id).isSome := by
    rw [firstById_isSome_iff, initNodes_map_id]
    exact List.mem_map.mpr ⟨s0, hs0mem, rfl⟩
  obtain ⟨node₀, hnode₀⟩ := Option.isSome_iff_exists.mp hinit_some
  obtain ⟨tail, htail⟩ := hhead node₀ hnode₀
  have hs0log : s0.id ∈ st'.log.map Prod.fst := by
    rw [htail]
    simp
  have hfa'' : List.Forall₂ (NodeEvol (st'.log.map Prod.fst) (some err))
      (initNodes wf.nodes s0.id) st'.nodes := by
    rw [hlog']
    exact hfa
  refine ⟨?_, ?_, ?_, ?_⟩
  · unfold executeWorkflow
    rw [hs0]
    dsimp only
    rw [hrun]
    dsimp only
    rw [hmsg]
    by_cases hnil : err.nodeId = ""
    · rw [if_pos hnil]
    · rw [if_neg hnil, setStatusAt_absent _ _ _ hst'_none]
  · intro n hn hFAIL
    obtain ⟨n₀, hn₀, hR⟩ := forall₂_mem_right hfa'' n hn
    rcases hR with rfl | ⟨hmem, hforms⟩
    · obtain ⟨m, hm, hid, htype, hstat⟩ := initNodes_mem n hn₀
      rcases hstat with hIDLE | ⟨hPASS, -⟩
      · rw [hIDLE] at hFAIL
        exact absurd hFAIL (by decide)
      · rw [hPASS] at hFAIL
        exact absurd hFAIL (by decide)
    · rcases hforms with rfl | ⟨err₂, herr₂, hid₂, rfl⟩
      · simp [markNode] at hFAIL
      · injection herr₂ with herr₂
        subst herr₂
        obtain ⟨m, hm, hid, -, -⟩ := initNodes_mem n₀ hn₀
        exact hdang m hm (hid₂.trans hid).symm
  · intro id hid
    rw [hlog'] at hid
    obtain ⟨n', hfind, hdisj⟩ := he id hid
    refine ⟨n', hfind, ?_⟩
    rcases hdisj with hP | hS | ⟨err₂, herr₂, hid₂⟩
    · exact hP
    · rcases forall₂_firstById hfa id with ⟨ha, hb⟩ | ⟨n₀, n₂, ha, hb, hR⟩
      · rw [hfind] at hb
        exact Option.noConfusion hb
      · rw [hfind] at hb
        injection hb with hb
        subst hb
        have htype0 : n₀.type = "START" := by
          rw [← hR.id_type.2]
          exact hS
        obtain ⟨m, hm, hidm, htypem, -⟩ := initNodes_mem n₀ (List.mem_of_find?_eq_some ha)
        have hms : m.id = s0.id := huniq m hm (by rw [← htypem]; exact htype0)
        have hid0 : n₀.id = id := firstById_id ha
        have hids0 : id = s0.id := by rw [← hid0, hidm, hms]
        have hsome0 : (firstById wf.nodes s0.id).isSome := by
          rw [firstById_isSome_iff]
          exact List.mem_map.mpr ⟨s0, hs0mem, rfl⟩
        obtain ⟨m₀, hm₀⟩ := Option.isSome_iff_exists.mp hsome0
        have hinitPASS : firstById (initNodes wf.nodes s0.id) s0.id =
            some (markNode m₀ "PASSED") := initNodes_firstById hm₀
        rw [hids0, hinitPASS] at ha
        injection ha with ha
        have hstat₀ : n₀.data.status = "PASSED" := by
          rw [← ha]
          rfl
        rcases hR with rfl | ⟨-, rfl | ⟨err₃, herr₃, hid₃, rfl⟩⟩
        · exact hstat₀
        · rfl
        · exfalso
          injection herr₃ with herr₃
          subst herr₃
          have hide : err.nodeId = id := by rw [hid₃, hid0]
          rw [← hide] at hfind
          rw [hst'_none] at hfind
          exact Option.noConfusion hfind
    · exfalso
      injection herr₂ with herr₂
      subst herr₂
      rw [← hid₂] at hfind
      rw [hst'_none] at hfind
      exact Option.noConfusion hfind
  · intro n hn hnot
    obtain ⟨n₀, hn₀, hR⟩ := forall₂_mem_right hfa'' n hn
    have hidEq := hR.id_type.1
    rcases hR with rfl | ⟨hmem, -⟩
    · obtain ⟨m, hm, hid, -, hstat⟩ := initNodes_mem n hn₀
      rcases hstat with hIDLE | ⟨-, hsid⟩
      · exact hIDLE
      · exact absurd (by rw [hsid]; exact hs0log) hnot
    · exact absurd (by rw [hidEq]; exact hmem) hnot

/-- A workflow whose last edge targets an id ("ghost") no node carries. -/
def wfDangling : Workflow :=
  ⟨[⟨"s", "START", {}⟩, ⟨"t", "TEXT", {}⟩],
    [⟨"e1", "s", "t"⟩, ⟨"e2", "t", "ghost"⟩]⟩

/-- The engine state after the dangling-edge run of `wfDangling`. -/
def stDangling : EngineState :=
  ⟨[⟨"s", "START", { status := "PASSED" }⟩, ⟨"t", "TEXT", { status := "PASSED" }⟩],
    [("s", []), ("t", [("s", simplePayload)])]⟩

/-- C10 witness: the dangling-edge theorem instantiated on a concrete run
that follows an edge to the absent id "ghost". -/
theorem danglingEdgeNoFailedMark_witness :
    (∀ n ∈ wfDangling.nodes, n.id ≠ "ghost") ∧
    (executeWorkflow httpUnused 5 wfDangling =
      some ({ success := false, message := "Node " ++ "ghost" ++ " not found",
              results := some [], nodes := some stDangling.nodes },
        stDangling.log)) ∧
    (∀ n ∈ stDangling.nodes, n.data.status ≠ "FAILED") ∧
    (∀ n ∈ stDangling.nodes, n.id ∉ stDangling.log.map Prod.fst →
      n.data.status = "IDLE") := by
  have h := danglingEdgeNoFailedMark httpUnused 5 wfDangling ⟨"s", "START", {}⟩
    stDangling ⟨"ghost", "Node ghost not found"⟩ rfl rfl (by decide) (by decide)
  exact ⟨by decide, h.1, h.2.1, h.2.2.2⟩

end Workflow

namespace Workflow

/-!
## Termination and non-termination (C8)

The recursion of `executeNode` has no cycle detection. The following
develops both directions: on graphs with no cycle reachable from the start
node, `edges.length + 1` fuel suffices (the recursion terminates); and on
graphs where every step succeeds, every edge target resolves, and a cycle
avoiding End nodes is reachable from the start along such nodes, every fuel
bound is exhausted (the recursion never returns). -/

/-- One directed step along a stored edge. -/
def edgeStep (edges : List Edge) (a b : String) : Prop :=
  ∃ e ∈ edges, e.source = a ∧ e.target = b

/-- A directed cycle is reachable from `start`. -/
def cycleReachableFrom (edges : List Edge) (start : String) : Prop :=
  ∃ c, Relation.ReflTransGen (edgeStep edges) start c ∧
    Relation.TransGen (edgeStep edges) c c

/-- The node's switch case resolves without throwing: any of the five
always-succeeding kinds, or an API call whose `fetch`+`.json()` resolve. -/
def nodeSucceeds (http : Http) (n : Node) : Prop :=
  n.type = "START" ∨ n.type = "EMAIL" ∨ n.type = "TEXT" ∨ n.type = "CONDITION" ∨
  n.type = "END" ∨
  (n.type = "API" ∧ ∃ status body,
    http (jsOr n.data.url "") (jsOr n.data.method "GET") =
      HttpOutcome.jsonResponse status body)

/-- The id resolves to a node that succeeds and is not an End node — the
recursion continues past it. -/
def benignAt (http : Http) (nodes : List Node) (id : String) : Prop :=
  ∃ n, firstById nodes id = some n ∧ nodeSucceeds http n ∧ n.type ≠ "END"

/-- An explicit benign path: a list of stored edges, each leaving a benign
node, chained source-to-target from `a` to `b`. -/
def IsBPath (http : Http) (nodes : List Node) (edges : List Edge) :
    String → List Edge → String → Prop
  | a, [], b => a = b
  | a, e :: p, b => benignAt http nodes a ∧ e ∈ edges ∧ e.source = a ∧
      IsBPath http nodes edges e.target p b

/-- Every node's step succeeds and every edge target resolves: no run of
this graph can throw. -/
def globalBenign (http : Http) (nodes : List Node) (edges : List Edge) : Prop :=
  (∀ n ∈ nodes, nodeSucceeds http n) ∧
  (∀ e ∈ edges, e.target ∈ nodes.map Node.id)

/-- A node with its status field blanked: what survives of a node across a
run (only `data.status` is ever written). -/
def eraseStatus (n : Node) : Node := markNode n ""

/-- Two node arrays equal up to statuses. -/
def shapeEq (ns ms : List Node) : Prop :=
  ns.map eraseStatus = ms.map eraseStatus

theorem nodeEvol_erase {v : List String} {e : Option RunError} {n n' : Node}
    (h : NodeEvol v e n n') : eraseStatus n' = eraseStatus n := by
  rcases h with rfl | ⟨-, rfl | ⟨err, -, -, rfl⟩⟩ <;> rfl

theorem forall₂_shape {v : List String} {e : Option RunError} :
    ∀ {ns ns' : List Node}, List.Forall₂ (NodeEvol v e) ns ns' → shapeEq ns' ns := by
  intro ns ns' h
  induction h with
  | nil => rfl
  | cons hR _ ih =>
    unfold shapeEq
    simp only [List.map_cons]
    rw [nodeEvol_erase hR]
    exact congrArg _ ih

/-- A terminating call changes nothing but statuses. -/
theorem executeNode_shape (http : Http) (edges : List Edge) (fuel : Nat)
    (a : String) (st st' : EngineState) (ctx : Ctx) (r : Except RunError Ctx)
    (h : executeNode http edges fuel a st ctx = some (st', r)) :
    shapeEq st'.nodes st.nodes := by
  obtain ⟨hev, -⟩ := executeNode_evolves http edges fuel a st ctx st' r h
  obtain ⟨_, -, hfa, -, -⟩ := hev
  exact forall₂_shape hfa

theorem erase_fields {n m : Node} (h : eraseStatus n = eraseStatus m) :
    n.id = m.id ∧ n.type = m.type ∧ n.data.url = m.data.url ∧
      n.data.method = m.data.method := by
  have h1 : (eraseStatus n).id = (eraseStatus m).id := congrArg Node.id h
  have h2 : (eraseStatus n).type = (eraseStatus m).type := congrArg Node.type h
  have h3 : (eraseStatus n).data.url = (eraseStatus m).data.url :=
    congrArg (fun x => x.data.url) h
  have h4 : (eraseStatus n).data.method = (eraseStatus m).data.method :=
    congrArg (fun x => x.data.method) h
  exact ⟨h1, h2, h3, h4⟩

theorem nodeSucceeds_of_erase {http : Http} {n m : Node}
    (h : eraseStatus n = eraseStatus m) (hs : nodeSucceeds http m) :
    nodeSucceeds http n := by
  obtain ⟨-, htype, hurl, hmethod⟩ := erase_fields h
  unfold nodeSucceeds at hs ⊢
  rw [htype, hurl, hmethod]
  exact hs

/-- Lookups on shape-equal arrays resolve the same ids, to shape-equal
nodes. -/
theorem shape_firstById : ∀ {ns ms : List Node}, shapeEq ns ms → ∀ id,
    (firstById ns id = none ∧ firstById ms id = none) ∨
    ∃ n m, firstById ns id = some n ∧ firstById ms id = some m ∧
      eraseStatus n = eraseStatus m := by
  intro ns
  induction ns with
  | nil =>
    intro ms h id
    cases ms with
    | nil => exact Or.inl ⟨rfl, rfl⟩
    | cons m rest => exact List.noConfusion h
  | cons n rest ih =>
    intro ms h id
    cases ms with
    | nil => exact List.noConfusion h
    | cons m rest' =>
      unfold shapeEq at h
      simp only [List.map_cons, List.cons.injEq] at h
      obtain ⟨hhead, htail⟩ := h
      have hid : n.id = m.id := (erase_fields hhead).1
      by_cases hb : (n.id == id) = true
      · rw [firstById_cons_pos hb, firstById_cons_pos (by rw [← hid]; exact hb)]
        exact Or.inr ⟨n, m, rfl, rfl, hhead⟩
      · rw [firstById_cons_neg hb, firstById_cons_neg (by rw [← hid]; exact hb)]
        exact ih htail id

theorem shapeEq_map_id {ns ms : List Node} (h : shapeEq ns ms) :
    ns.map Node.id = ms.map Node.id := by
  have e1 : ns.map Node.id = (ns.map eraseStatus).map Node.id := by
    rw [List.map_map]
    rfl
  have e2 : ms.map Node.id = (ms.map eraseStatus).map Node.id := by
    rw [List.map_map]
    rfl
  rw [e1, e2, h]

theorem setStatusAt_shape (ns : List Node) (id s : String) :
    shapeEq (setStatusAt ns id s) ns := by
  induction ns with
  | nil => rfl
  | cons n rest ih =>
    unfold setStatusAt
    by_cases hb : (n.id == id) = true
    · rw [if_pos hb]
      unfold shapeEq
      simp only [List.map_cons]
      rfl
    · rw [if_neg hb]
      unfold shapeEq
      simp only [List.map_cons]
      exact congrArg₂ List.cons rfl ih

theorem allIdle_shape (ns : List Node) : shapeEq (allIdle ns) ns := by
  unfold shapeEq allIdle
  rw [List.map_map]
  rfl

theorem initNodes_shape (ns : List Node) (sid : String) :
    shapeEq (initNodes ns sid) ns := by
  unfold initNodes shapeEq
  rw [setStatusAt_shape, allIdle_shape]

end Workflow

namespace Workflow

/-- On shape-equal arrays, a globally benign graph resolves every stored id
to a succeeding node. -/
theorem lookup_succeeds {http : Http} {nodes₀ : List Node} {edges : List Edge}
    (hg : globalBenign http nodes₀ edges) {st : List Node}
    (hsh : shapeEq st nodes₀) {a : String} (ha : a ∈ nodes₀.map Node.id) :
    ∃ n, firstById st a = some n ∧ nodeSucceeds http n := by
  rcases shape_firstById hsh a with ⟨h1, h2⟩ | ⟨n, m, h1, h2, he⟩
  · exfalso
    have hs : (firstById nodes₀ a).isSome := firstById_isSome_iff.mpr ha
    rw [h2] at hs
    simp at hs
  · exact ⟨n, h1, nodeSucceeds_of_erase he (hg.1 m (List.mem_of_find?_eq_some h2))⟩

/-- On a benign graph the children loop never surfaces an error. -/
theorem runList_noError
    (step : String → EngineState → Option (EngineState × Except RunError Ctx))
    (nodes₀ : List Node)
    (hstepshape : ∀ t s s' rr, step t s = some (s', rr) → shapeEq s'.nodes s.nodes)
    (hstepok : ∀ t s s' rr, shapeEq s.nodes nodes₀ → t ∈ nodes₀.map Node.id →
      step t s = some (s', rr) → ∃ c, rr = Except.ok c) :
    ∀ (l : List Edge), (∀ e ∈ l, e.target ∈ nodes₀.map Node.id) →
    ∀ st st' u, shapeEq st.nodes nodes₀ → runList step l st = some (st', u) →
      u = Except.ok () ∧ shapeEq st'.nodes nodes₀ := by
  intro l
  induction l with
  | nil =>
    intro _ st st' u hsh h
    unfold runList at h
    injection h with h'
    injection h' with h1 h2
    subst h1
    subst h2
    exact ⟨rfl, hsh⟩
  | cons e rest ih =>
    intro hmem st st' u hsh h
    unfold runList at h
    cases hs : step e.target st with
    | none =>
      rw [hs] at h
      exact Option.noConfusion h
    | some p =>
      obtain ⟨s₁, rr⟩ := p
      rw [hs] at h
      obtain ⟨c, hc⟩ := hstepok e.target st s₁ rr hsh
        (hmem e (List.mem_cons_self _ _)) hs
      subst hc
      dsimp only at h
      have hsh₁ : shapeEq s₁.nodes nodes₀ :=
        (hstepshape e.target st s₁ _ hs).trans hsh
      exact ih (fun e' he' => hmem e' (List.mem_cons_of_mem _ he')) s₁ st' u hsh₁ h

/-- On a benign graph, "children then own context" yields the own context. -/
theorem withChildren_ok
    {step : String → EngineState → Option (EngineState × Except RunError Ctx)}
    {nodes₀ : List Node} {u : Ctx} {l : List Edge} {st₂ st' : EngineState}
    {r : Except RunError Ctx}
    (hstepshape : ∀ t s s' rr, step t s = some (s', rr) → shapeEq s'.nodes s.nodes)
    (hstepok : ∀ t s s' rr, shapeEq s.nodes nodes₀ → t ∈ nodes₀.map Node.id →
      step t s = some (s', rr) → ∃ c, rr = Except.ok c)
    (hmem : ∀ e ∈ l, e.target ∈ nodes₀.map Node.id)
    (hsh₂ : shapeEq st₂.nodes nodes₀)
    (h : withChildren u (runList step l st₂) = some (st', r)) :
    r = Except.ok u := by
  unfold withChildren at h
  cases hr : runList step l st₂ with
  | none =>
    rw [hr] at h
    exact Option.noConfusion h
  | some p =>
    obtain ⟨s₂, ru⟩ := p
    rw [hr] at h
    obtain ⟨hu, -⟩ := runList_noError step nodes₀ hstepshape hstepok l hmem st₂ s₂ ru hsh₂ hr
    subst hu
    dsimp only at h
    injection h with h'
    injection h' with h1 h2
    exact h2.symm

/-- On a globally benign graph no call of `executeNode` on a stored id ever
returns an error. -/
theorem executeNode_noError (http : Http) (nodes₀ : List Node) (edges : List Edge)
    (hg : globalBenign http nodes₀ edges) : ∀ (fuel : Nat) (a : String)
    (st : EngineState) (ctx : Ctx) (st' : EngineState) (r : Except RunError Ctx),
    shapeEq st.nodes nodes₀ → a ∈ nodes₀.map Node.id →
    executeNode http edges fuel a st ctx = some (st', r) → ∃ c, r = Except.ok c := by
  intro fuel
  induction fuel with
  | zero =>
    intro a st ctx st' r _ _ h
    simp [executeNode] at h
  | succ fuel ih =>
    intro a st ctx st' r hsh ha h
    obtain ⟨n, hn, hns⟩ := lookup_succeeds hg hsh ha
    simp only [executeNode, hn] at h
    have hstepshape : ∀ (u : Ctx) t s s' rr,
        executeNode http edges fuel t s u = some (s', rr) → shapeEq s'.nodes s.nodes :=
      fun u t s s' rr hh => executeNode_shape http edges fuel t s s' u rr hh
    have hstepok : ∀ (u : Ctx) t s s' rr, shapeEq s.nodes nodes₀ →
        t ∈ nodes₀.map Node.id →
        executeNode http edges fuel t s u = some (s', rr) → ∃ c, rr = Except.ok c :=
      fun u t s s' rr hs ht hh => ih t s u s' rr hs ht hh
    have hmemOut : ∀ e ∈ outgoing edges a, e.target ∈ nodes₀.map Node.id :=
      fun e he => hg.2 e (List.mem_filter.mp he).1
    rcases hns with hSTART | hEMAIL | hTEXT | hCOND | hEND | ⟨hAPI, status, body, hresp⟩
    · rw [if_pos hSTART] at h
      exact ⟨_, withChildren_ok (hstepshape _) (hstepok _) hmemOut (by exact hsh) h⟩
    · rw [if_neg (by rw [hEMAIL]; decide), if_neg (by rw [hEMAIL]; decide),
        if_pos hEMAIL] at h
      exact ⟨_, withChildren_ok (hstepshape _) (hstepok _) hmemOut
        (by exact (setStatusAt_shape _ _ _).trans hsh) h⟩
    · rw [if_neg (by rw [hTEXT]; decide), if_neg (by rw [hTEXT]; decide),
        if_neg (by rw [hTEXT]; decide), if_pos hTEXT] at h
      exact ⟨_, withChildren_ok (hstepshape _) (hstepok _) hmemOut
        (by exact (setStatusAt_shape _ _ _).trans hsh) h⟩
    · rw [if_neg (by rw [hCOND]; decide), if_neg (by rw [hCOND]; decide),
        if_neg (by rw [hCOND]; decide), if_neg (by rw [hCOND]; decide),
        if_pos hCOND] at h
      exact ⟨_, withChildren_ok (hstepshape _) (hstepok _) hmemOut
        (by exact (setStatusAt_shape _ _ _).trans hsh) h⟩
    · rw [if_neg (by rw [hEND]; decide), if_neg (by rw [hEND]; decide),
        if_neg (by rw [hEND]; decide), if_neg (by rw [hEND]; decide),
        if_neg (by rw [hEND]; decide), if_pos hEND] at h
      injection h with h'
      injection h' with h1 h2
      exact ⟨_, h2.symm⟩
    · rw [if_neg (by rw [hAPI]; decide), if_pos hAPI, hresp] at h
      dsimp only at h
      exact ⟨_, withChildren_ok (hstepshape _) (hstepok _) hmemOut
        (by exact (setStatusAt_shape _ _ _).trans hsh) h⟩

end Workflow

namespace Workflow

/-- If the loop's runList diverges, so does the node. -/
theorem withChildren_none
    {step : String → EngineState → Option (EngineState × Except RunError Ctx)}
    {u : Ctx} {l : List Edge} {st₂ : EngineState}
    (h : runList step l st₂ = none) : withChildren u (runList step l st₂) = none := by
  unfold withChildren
  rw [h]

/-- If one listed child diverges and every earlier child succeeds, the
children loop diverges. -/
theorem runList_dive
    (step : String → EngineState → Option (EngineState × Except RunError Ctx))
    (nodes₀ : List Node) (e : Edge)
    (hstepshape : ∀ t s s' rr, step t s = some (s', rr) → shapeEq s'.nodes s.nodes)
    (hstepok : ∀ t s s' rr, shapeEq s.nodes nodes₀ → t ∈ nodes₀.map Node.id →
      step t s = some (s', rr) → ∃ c, rr = Except.ok c)
    (hdive : ∀ s, shapeEq s.nodes nodes₀ → step e.target s = none) :
    ∀ (l : List Edge), e ∈ l → (∀ e' ∈ l, e'.target ∈ nodes₀.map Node.id) →
    ∀ st, shapeEq st.nodes nodes₀ → runList step l st = none := by
  intro l
  induction l with
  | nil =>
    intro he
    cases he
  | cons f rest ih =>
    intro he hmem st hsh
    unfold runList
    rcases List.mem_cons.mp he with rfl | he'
    · rw [hdive st hsh]
    · cases hs : step f.target st with
      | none => rfl
      | some p =>
        obtain ⟨s₁, rr⟩ := p
        obtain ⟨c, hc⟩ := hstepok f.target st s₁ rr hsh
          (hmem f (List.mem_cons_self _ _)) hs
        subst hc
        dsimp only
        exact ih he' (fun e' h' => hmem e' (List.mem_cons_of_mem _ h')) s₁
          ((hstepshape f.target st s₁ _ hs).trans hsh)

/-- On a globally benign graph, a benign path at least as long as the fuel
exhausts the recursion: `executeNode` returns `none` — the source would
still be recursing at that depth. -/
theorem executeNode_dive (http : Http) (nodes₀ : List Node) (edges : List Edge)
    (hg : globalBenign http nodes₀ edges) : ∀ (fuel : Nat) (a : String),
    (∃ p b, IsBPath http nodes₀ edges a p b ∧ fuel ≤ p.length) →
    ∀ (st : EngineState) (ctx : Ctx), shapeEq st.nodes nodes₀ →
    executeNode http edges fuel a st ctx = none := by
  intro fuel
  induction fuel with
  | zero =>
    intro a _ st ctx _
    rfl
  | succ fuel ih =>
    intro a hpath st ctx hsh
    obtain ⟨p, b, hp, hlen⟩ := hpath
    cases p with
    | nil => exact absurd hlen (Nat.not_succ_le_zero fuel)
    | cons e p' =>
      obtain ⟨hben, heE, hsrc, hrest⟩ := hp
      obtain ⟨n₀, hn₀, hns₀, hne₀⟩ := hben
      rcases shape_firstById hsh a with ⟨h1, h2⟩ | ⟨n, m, h1, h2, he⟩
      · rw [hn₀] at h2
        exact Option.noConfusion h2
      · rw [hn₀] at h2
        injection h2 with h2
        subst h2
        have hns : nodeSucceeds http n := nodeSucceeds_of_erase he hns₀
        have hntype : n.type = n₀.type := (erase_fields he).2.1
        simp only [executeNode, h1]
        have hstepshape : ∀ (u : Ctx) t s s' rr,
            executeNode http edges fuel t s u = some (s', rr) →
            shapeEq s'.nodes s.nodes :=
          fun u t s s' rr hh => executeNode_shape http edges fuel t s s' u rr hh
        have hstepok : ∀ (u : Ctx) t s s' rr, shapeEq s.nodes nodes₀ →
            t ∈ nodes₀.map Node.id →
            executeNode http edges fuel t s u = some (s', rr) →
            ∃ c, rr = Except.ok c :=
          fun u t s s' rr hs ht hh =>
            executeNode_noError http nodes₀ edges hg fuel t s u s' rr hs ht hh
        have hdive : ∀ (u : Ctx) s, shapeEq s.nodes nodes₀ →
            executeNode http edges fuel e.target s u = none :=
          fun u s hs => ih e.target
            ⟨p', b, hrest, Nat.le_of_succ_le_succ (by simpa using hlen)⟩ s u hs
        have hmemOut : ∀ e' ∈ outgoing edges a, e'.target ∈ nodes₀.map Node.id :=
          fun e' he' => hg.2 e' (List.mem_filter.mp he').1
        have heOut : e ∈ outgoing edges a :=
          List.mem_filter.mpr ⟨heE, by rw [hsrc]; exact beq_self_eq_true a⟩
        rcases hns with hSTART | hEMAIL | hTEXT | hCOND | hEND | ⟨hAPI, status, body, hresp⟩
        · rw [if_pos hSTART]
          apply withChildren_none
          exact runList_dive _ nodes₀ e (hstepshape _) (hstepok _) (hdive _)
            (outgoing edges a) heOut hmemOut _ (by exact hsh)
        · rw [if_neg (by rw [hEMAIL]; decide), if_neg (by rw [hEMAIL]; decide),
            if_pos hEMAIL]
          apply withChildren_none
          exact runList_dive _ nodes₀ e (hstepshape _) (hstepok _) (hdive _)
            (outgoing edges a) heOut hmemOut _
            (by exact (setStatusAt_shape _ _ _).trans hsh)
        · rw [if_neg (by rw [hTEXT]; decide), if_neg (by rw [hTEXT]; decide),
            if_neg (by rw [hTEXT]; decide), if_pos hTEXT]
          apply withChildren_none
          exact runList_dive _ nodes₀ e (hstepshape _) (hstepok _) (hdive _)
            (outgoing edges a) heOut hmemOut _
            (by exact (setStatusAt_shape _ _ _).trans hsh)
        · rw [if_neg (by rw [hCOND]; decide), if_neg (by rw [hCOND]; decide),
            if_neg (by rw [hCOND]; decide), if_neg (by rw [hCOND]; decide),
            if_pos hCOND]
          apply withChildren_none
          exact runList_dive _ nodes₀ e (hstepshape _) (hstepok _) (hdive _)
            (outgoing edges a) heOut hmemOut _
            (by exact (setStatusAt_shape _ _ _).trans hsh)
        · exact absurd (hntype ▸ hEND) hne₀
        · rw [if_neg (by rw [hAPI]; decide), if_pos hAPI, hresp]
          dsimp only
          apply withChildren_none
          exact runList_dive _ nodes₀ e (hstepshape _) (hstepok _) (hdive _)
            (outgoing edges a) heOut hmemOut _
            (by exact (setStatusAt_shape _ _ _).trans hsh)

end Workflow

namespace Workflow

theorem IsBPath.append {http : Http} {nodes : List Node} {edges : List Edge} :
    ∀ {p : List Edge} {a c b : String} {q : List Edge},
    IsBPath http nodes edges a p c → IsBPath http nodes edges c q b →
    IsBPath http nodes edges a (p ++ q) b := by
  intro p
  induction p with
  | nil =>
    intro a c b q h1 h2
    unfold IsBPath at h1
    subst h1
    exact h2
  | cons e p' ih =>
    intro a c b q h1 h2
    obtain ⟨hben, he, hsrc, hrest⟩ := h1
    exact ⟨hben, he, hsrc, ih hrest h2⟩

/-- Pumping a benign cycle. -/
theorem IsBPath.cyclePow {http : Http} {nodes : List Node} {edges : List Edge}
    {c : String} {q : List Edge} (h : IsBPath http nodes edges c q c) :
    ∀ m : Nat, ∃ r, IsBPath http nodes edges c r c ∧ r.length = m * q.length := by
  intro m
  induction m with
  | zero => exact ⟨[], rfl, by simp⟩
  | succ k ih =>
    obtain ⟨r, hr, hlen⟩ := ih
    refine ⟨q ++ r, h.append hr, ?_⟩
    rw [List.length_append, hlen, Nat.succ_mul, Nat.add_comm]

/-- A lasso (benign path to a benign nonempty cycle) yields benign paths of
every length. -/
theorem lasso_long {http : Http} {nodes : List Node} {edges : List Edge}
    {s c : String} {p q : List Edge}
    (hp : IsBPath http nodes edges s p c) (hq : IsBPath http nodes edges c q c)
    (hne : q ≠ []) :
    ∀ fuel : Nat, ∃ r b, IsBPath http nodes edges s r b ∧ fuel ≤ r.length := by
  intro fuel
  obtain ⟨r, hr, hlen⟩ := hq.cyclePow fuel
  refine ⟨p ++ r, c, hp.append hr, ?_⟩
  have h1 : fuel ≤ r.length := by
    rw [hlen]
    calc fuel = fuel * 1 := (Nat.mul_one fuel).symm
      _ ≤ fuel * q.length := Nat.mul_le_mul_left fuel (List.length_pos.mpr hne)
  rw [List.length_append]
  exact le_trans h1 (Nat.le_add_left _ _)

theorem IsBPath.mem_edges {http : Http} {nodes : List Node} {edges : List Edge} :
    ∀ {p : List Edge} {a b : String}, IsBPath http nodes edges a p b →
    ∀ e ∈ p, e ∈ edges := by
  intro p
  induction p with
  | nil => intro a b _ e he; cases he
  | cons f p' ih =>
    intro a b h e he
    obtain ⟨-, hf, -, hrest⟩ := h
    rcases List.mem_cons.mp he with rfl | he'
    · exact hf
    · exact ih hrest e he'

/-- Every edge of a benign path has its source reachable from the path's
origin. -/
theorem IsBPath.reach_src {http : Http} {nodes : List Node} {edges : List Edge} :
    ∀ {p : List Edge} {a b : String}, IsBPath http nodes edges a p b →
    ∀ e ∈ p, Relation.ReflTransGen (edgeStep edges) a e.source := by
  intro p
  induction p with
  | nil => intro a b _ e he; cases he
  | cons f p' ih =>
    intro a b h e he
    obtain ⟨-, hf, hsrc, hrest⟩ := h
    rcases List.mem_cons.mp he with rfl | he'
    · rw [hsrc]
    · exact Relation.ReflTransGen.head ⟨f, hf, hsrc, rfl⟩ (ih hrest e he')

/-- Dropping a prefix of a benign path keeps a benign path. -/
theorem IsBPath.suffix {http : Http} {nodes : List Node} {edges : List Edge} :
    ∀ {l1 : List Edge} {a b : String} {e : Edge} {l2 : List Edge},
    IsBPath http nodes edges a (l1 ++ e :: l2) b →
    IsBPath http nodes edges e.target l2 b := by
  intro l1
  induction l1 with
  | nil =>
    intro a b e l2 h
    exact h.2.2.2
  | cons f l1' ih =>
    intro a b e l2 h
    exact ih h.2.2.2

/-- An element occurring at least twice splits the list with a later
occurrence. -/
theorem two_le_count_split {α : Type} [DecidableEq α] :
    ∀ {p : List α} {e : α}, 2 ≤ p.count e →
    ∃ l1 l2, p = l1 ++ e :: l2 ∧ e ∈ l2 := by
  intro p
  induction p with
  | nil =>
    intro e h
    simp [List.count_nil] at h
  | cons f rest ih =>
    intro e h
    by_cases hf : f = e
    · subst hf
      rw [List.count_cons_self] at h
      have h1 : 1 ≤ rest.count f := by omega
      exact ⟨[], rest, rfl, List.count_pos_iff.mp h1⟩
    · rw [List.count_cons_of_ne (fun hne => hf hne.symm)] at h
      obtain ⟨l1, l2, hsplit, hmem⟩ := ih h
      exact ⟨f :: l1, l2, by rw [hsplit]; rfl, hmem⟩

/-- A duplicate-free list of stored edges is no longer than the edge list. -/
theorem nodup_length_le {p edges : List Edge} (hn : p.Nodup)
    (hsub : ∀ x ∈ p, x ∈ edges) : p.length ≤ edges.length := by
  have h1 : p.toFinset.card = p.length := List.toFinset_card_of_nodup hn
  have h2 : p.toFinset ⊆ edges.toFinset := fun x hx =>
    List.mem_toFinset.mpr (hsub x (List.mem_toFinset.mp hx))
  calc p.length = p.toFinset.card := h1.symm
    _ ≤ edges.toFinset.card := Finset.card_le_card h2
    _ ≤ edges.length := List.toFinset_card_le edges

/-- When no cycle is reachable from `a`, every benign path from `a` fits
within the edge list. -/
theorem no_cycle_bound {http : Http} {nodes : List Node} {edges : List Edge}
    {a : String} (hnc : ¬cycleReachableFrom edges a) :
    ∀ p b, IsBPath http nodes edges a p b → p.length < edges.length + 1 := by
  intro p b hp
  by_contra hlong
  have hlen : edges.length < p.length := by omega
  have hnotnodup : ¬p.Nodup := fun hn =>
    absurd (nodup_length_le hn (hp.mem_edges)) (by omega)
  have hcount : ∃ e, 2 ≤ p.count e := by
    by_contra hall
    push_neg at hall
    exact hnotnodup (List.nodup_iff_count_le_one.mpr (fun e => by
      have := hall e
      omega))
  obtain ⟨e, he2⟩ := hcount
  obtain ⟨l1, l2, hsplit, hmem⟩ := two_le_count_split he2
  apply hnc
  refine ⟨e.source, ?_, ?_⟩
  · exact hp.reach_src e (by rw [hsplit]; exact List.mem_append_right _ (List.mem_cons_self _ _))
  · have hsuffix : IsBPath http nodes edges e.target l2 b := by
      rw [hsplit] at hp
      exact hp.suffix
    have hreach : Relation.ReflTransGen (edgeStep edges) e.target e.source :=
      hsuffix.reach_src e hmem
    exact Relation.TransGen.head'
      ⟨e, hp.mem_edges e (by rw [hsplit]; exact List.mem_append_right _ (List.mem_cons_self _ _)),
        rfl, rfl⟩ hreach

end Workflow

namespace Workflow

theorem withChildren_isSome
    {step : String → EngineState → Option (EngineState × Except RunError Ctx)}
    {u : Ctx} {l : List Edge} {st₂ : EngineState}
    (h : (runList step l st₂).isSome) :
    (withChildren u (runList step l st₂)).isSome := by
  unfold withChildren
  cases hr : runList step l st₂ with
  | none =>
    rw [hr] at h
    simp at h
  | some p =>
    obtain ⟨s₂, ru⟩ := p
    cases ru with
    | error err => simp
    | ok c => simp

/-- If every listed child's call returns, the children loop returns. -/
theorem runList_isSome
    (step : String → EngineState → Option (EngineState × Except RunError Ctx))
    (nodes₀ : List Node)
    (hstepshape : ∀ t s s' rr, step t s = some (s', rr) → shapeEq s'.nodes s.nodes) :
    ∀ (l : List Edge),
    (∀ e' ∈ l, ∀ s : EngineState, shapeEq s.nodes nodes₀ → (step e'.target s).isSome) →
    ∀ st, shapeEq st.nodes nodes₀ → (runList step l st).isSome := by
  intro l
  induction l with
  | nil =>
    intro _ st _
    simp [runList]
  | cons f rest ih =>
    intro hsome st hsh
    unfold runList
    cases hs : step f.target st with
    | none =>
      have hx := hsome f (List.mem_cons_self _ _) st hsh
      rw [hs] at hx
      simp at hx
    | some p =>
      obtain ⟨s₁, rr⟩ := p
      cases rr with
      | error err => simp
      | ok c =>
        dsimp only
        exact ih (fun e' h' s hs2 => hsome e' (List.mem_cons_of_mem _ h') s hs2) s₁
          ((hstepshape f.target st s₁ _ hs).trans hsh)

/-- When every benign path from `a` is shorter than the fuel, the call
returns (with a success or an error — the recursion does not run out). -/
theorem executeNode_someOf (http : Http) (nodes₀ : List Node) (edges : List Edge) :
    ∀ (fuel : Nat) (a : String),
    (∀ p b, IsBPath http nodes₀ edges a p b → p.length < fuel) →
    ∀ (st : EngineState) (ctx : Ctx), shapeEq st.nodes nodes₀ →
    (executeNode http edges fuel a st ctx).isSome := by
  intro fuel
  induction fuel with
  | zero =>
    intro a hb st ctx _
    exact absurd (hb [] a rfl) (by omega)
  | succ fuel ih =>
    intro a hb st ctx hsh
    cases hf : firstById st.nodes a with
    | none => simp [executeNode, hf]
    | some n =>
      rcases shape_firstById hsh a with ⟨h1, h2⟩ | ⟨n', m, h1, h2, he⟩
      · rw [hf] at h1
        exact Option.noConfusion h1
      · rw [hf] at h1
        injection h1 with h1
        subst h1
        simp only [executeNode, hf]
        have hstepshape : ∀ (u : Ctx) t s s' rr,
            executeNode http edges fuel t s u = some (s', rr) →
            shapeEq s'.nodes s.nodes :=
          fun u t s s' rr hh => executeNode_shape http edges fuel t s s' u rr hh
        have hsrc_eq : ∀ e' ∈ outgoing edges a, e'.source = a := fun e' he' =>
          eq_of_beq (List.mem_filter.mp he').2
        have hmemE : ∀ e' ∈ outgoing edges a, e' ∈ edges := fun e' he' =>
          (List.mem_filter.mp he').1
        have hmt : m.type = n.type := ((erase_fields he).2.1).symm
        have hchild : nodeSucceeds http m → m.type ≠ "END" →
            ∀ (u : Ctx), ∀ e' ∈ outgoing edges a, ∀ s : EngineState,
            shapeEq s.nodes nodes₀ →
            (executeNode http edges fuel e'.target s u).isSome := by
          intro hm hmE u e' he' s hs2
          apply ih
          · intro p b hp
            by_contra hge
            push_neg at hge
            have hfull : IsBPath http nodes₀ edges a (e' :: p) b :=
              ⟨⟨m, h2, hm, hmE⟩, hmemE e' he', hsrc_eq e' he', hp⟩
            have hlt := hb (e' :: p) b hfull
            simp [List.length_cons] at hlt
            omega
          · exact hs2
        by_cases hSTART : n.type = "START"
        · rw [if_pos hSTART]
          have hmS : nodeSucceeds http m := Or.inl (by rw [hmt, hSTART])
          have hmNE : m.type ≠ "END" := by rw [hmt, hSTART]; decide
          exact withChildren_isSome (runList_isSome _ nodes₀ (hstepshape _)
            (outgoing edges a) (fun e' he' s hs2 => hchild hmS hmNE _ e' he' s hs2)
            _ (by exact hsh))
        · rw [if_neg hSTART]
          by_cases hAPI : n.type = "API"
          · rw [if_pos hAPI]
            cases hh : http (jsOr n.data.url "") (jsOr n.data.method "GET") with
            | transportError msg => simp
            | invalidJson status msg => simp
            | jsonResponse status body =>
              dsimp only
              have hmS : nodeSucceeds http m := by
                refine Or.inr (Or.inr (Or.inr (Or.inr (Or.inr
                  ⟨by rw [hmt, hAPI], status, body, ?_⟩))))
                have hu : m.data.url = n.data.url := ((erase_fields he).2.2.1).symm
                have hme : m.data.method = n.data.method := ((erase_fields he).2.2.2).symm
                rw [hu, hme]
                exact hh
              have hmNE : m.type ≠ "END" := by rw [hmt, hAPI]; decide
              exact withChildren_isSome (runList_isSome _ nodes₀ (hstepshape _)
                (outgoing edges a) (fun e' he' s hs2 => hchild hmS hmNE _ e' he' s hs2)
                _ (by exact (setStatusAt_shape _ _ _).trans hsh))
          · rw [if_neg hAPI]
            by_cases hEMAIL : n.type = "EMAIL"
            · rw [if_pos hEMAIL]
              have hmS : nodeSucceeds http m := Or.inr (Or.inl (by rw [hmt, hEMAIL]))
              have hmNE : m.type ≠ "END" := by rw [hmt, hEMAIL]; decide
              exact withChildren_isSome (runList_isSome _ nodes₀ (hstepshape _)
                (outgoing edges a) (fun e' he' s hs2 => hchild hmS hmNE _ e' he' s hs2)
                _ (by exact (setStatusAt_shape _ _ _).trans hsh))
            · rw [if_neg hEMAIL]
              by_cases hTEXT : n.type = "TEXT"
              · rw [if_pos hTEXT]
                have hmS : nodeSucceeds http m :=
                  Or.inr (Or.inr (Or.inl (by rw [hmt, hTEXT])))
                have hmNE : m.type ≠ "END" := by rw [hmt, hTEXT]; decide
                exact withChildren_isSome (runList_isSome _ nodes₀ (hstepshape _)
                  (outgoing edges a) (fun e' he' s hs2 => hchild hmS hmNE _ e' he' s hs2)
                  _ (by exact (setStatusAt_shape _ _ _).trans hsh))
              · rw [if_neg hTEXT]
                by_cases hCOND : n.type = "CONDITION"
                · rw [if_pos hCOND]
                  have hmS : nodeSucceeds http m :=
                    Or.inr (Or.inr (Or.inr (Or.inl (by rw [hmt, hCOND]))))
                  have hmNE : m.type ≠ "END" := by rw [hmt, hCOND]; decide
                  exact withChildren_isSome (runList_isSome _ nodes₀ (hstepshape _)
                    (outgoing edges a) (fun e' he' s hs2 => hchild hmS hmNE _ e' he' s hs2)
                    _ (by exact (setStatusAt_shape _ _ _).trans hsh))
                · rw [if_neg hCOND]
                  by_cases hEND : n.type = "END"
                  · rw [if_pos hEND]
                    simp
                  · rw [if_neg hEND]
                    simp

end Workflow

namespace Workflow

/-- C8 (amended): termination dichotomy.
(A) If no directed cycle is reachable from the start node, `edges.length+1`
fuel suffices: the traversal terminates and returns a result (success or
error).
(B) Conversely, on a graph where every node's step succeeds and every edge
target resolves, if a cycle of non-End nodes is reachable from the start
node along non-End succeeding nodes (a benign lasso), the traversal
exhausts every fuel bound: it never returns. -/
theorem terminationDichotomy :
    (∀ (http : Http) (wf : Workflow) (s0 : Node),
      wf.nodes.find? (fun n => n.type == "START") = some s0 →
      ¬cycleReachableFrom wf.edges s0.id →
      (executeWorkflow http (wf.edges.length + 1) wf).isSome) ∧
    (∀ (http : Http) (wf : Workflow) (s0 : Node),
      wf.nodes.find? (fun n => n.type == "START") = some s0 →
      globalBenign http wf.nodes wf.edges →
      (∃ c p q, IsBPath http wf.nodes wf.edges s0.id p c ∧
        IsBPath http wf.nodes wf.edges c q c ∧ q ≠ []) →
      ∀ fuel, executeWorkflow http fuel wf = none) := by
  constructor
  · intro http wf s0 hs0 hnc
    have hsome := executeNode_someOf http wf.nodes wf.edges (wf.edges.length + 1)
      s0.id (no_cycle_bound hnc) ⟨initNodes wf.nodes s0.id, []⟩ []
      (by exact initNodes_shape _ _)
    unfold executeWorkflow
    rw [hs0]
    dsimp only
    cases hex : executeNode http wf.edges (wf.edges.length + 1) s0.id
        ⟨initNodes wf.nodes s0.id, []⟩ [] with
    | none =>
      rw [hex] at hsome
      simp at hsome
    | some p =>
      obtain ⟨st2, res⟩ := p
      cases res <;> simp
  · rintro http wf s0 hs0 hg ⟨c, p, q, hp, hq, hne⟩ fuel
    unfold executeWorkflow
    rw [hs0]
    dsimp only
    rw [executeNode_dive http wf.nodes wf.edges hg fuel s0.id
      (lasso_long hp hq hne fuel) ⟨initNodes wf.nodes s0.id, []⟩ []
      (by exact initNodes_shape _ _)]

/-- Start(s) → End(z) with a self-loop edge on the End node: a directed
cycle is reachable from the start node. -/
def wfEndCycle : Workflow :=
  ⟨[⟨"s", "START", {}⟩, ⟨"z", "END", {}⟩], [⟨"c1", "s", "z"⟩, ⟨"c2", "z", "z"⟩]⟩

/-- C8 counterexample: a directed cycle (z → z) is reachable from Start,
yet the traversal terminates — the END case returns without following
outgoing edges, so the cycle is never entered. This refutes "on a graph
with a cycle reachable from Start, the traversal does not terminate". -/
theorem cycleMayTerminate :
    cycleReachableFrom wfEndCycle.edges "s" ∧
    executeWorkflow httpUnused 5 wfEndCycle =
      some ({ success := true, message := "Workflow executed successfully",
              results := some [("s", simplePayload)],
              nodes := some [⟨"s", "START", { status := "PASSED" }⟩,
                ⟨"z", "END", { status := "PASSED" }⟩] },
        [("s", []), ("z", [("s", simplePayload)])]) := by
  constructor
  · refine ⟨"z", Relation.ReflTransGen.single ⟨⟨"c1", "s", "z"⟩, ?_, rfl, rfl⟩,
      Relation.TransGen.single ⟨⟨"c2", "z", "z"⟩, ?_, rfl, rfl⟩⟩
    · decide
    · decide
  · rfl

/-- A single START node, no edges: nothing is reachable, no cycle. -/
def wfNoCycleTiny : Workflow := ⟨[⟨"s", "START", {}⟩], []⟩

/-- A single START node with a self-loop: a benign cycle at the start. -/
def wfSelfLoop : Workflow := ⟨[⟨"s", "START", {}⟩], [⟨"c", "s", "s"⟩]⟩

/-- C8 witness: part (A) on the edgeless one-node graph (terminates with
fuel `edges.length+1 = 1`), part (B) on the self-looping START node (every
fuel bound, here 7, is exhausted). -/
theorem terminationDichotomy_witness :
    (¬cycleReachableFrom wfNoCycleTiny.edges "s") ∧
    (executeWorkflow httpUnused (wfNoCycleTiny.edges.length + 1) wfNoCycleTiny).isSome ∧
    globalBenign httpUnused wfSelfLoop.nodes wfSelfLoop.edges ∧
    executeWorkflow httpUnused 7 wfSelfLoop = none := by
  have hsteps : ∀ a b : String, ¬Relation.TransGen (edgeStep wfNoCycleTiny.edges) a b := by
    intro a b h
    induction h with
    | single h =>
      obtain ⟨e, he, -⟩ := h
      cases he
    | tail h1 h2 ih =>
      obtain ⟨e, he, -⟩ := h2
      cases he
  have hnc : ¬cycleReachableFrom wfNoCycleTiny.edges "s" := by
    rintro ⟨c, -, hcyc⟩
    exact hsteps c c hcyc
  have hg : globalBenign httpUnused wfSelfLoop.nodes wfSelfLoop.edges := by
    constructor
    · intro n hn
      simp only [wfSelfLoop, List.mem_singleton] at hn
      subst hn
      exact Or.inl rfl
    · intro e hemem
      simp only [wfSelfLoop, List.mem_singleton] at hemem
      subst hemem
      decide
  have hlasso : ∃ c p q, IsBPath httpUnused wfSelfLoop.nodes wfSelfLoop.edges "s" p c ∧
      IsBPath httpUnused wfSelfLoop.nodes wfSelfLoop.edges c q c ∧ q ≠ [] := by
    refine ⟨"s", [], [⟨"c", "s", "s"⟩], rfl, ⟨?_, ?_, rfl, rfl⟩, by decide⟩
    · exact ⟨⟨"s", "START", {}⟩, rfl, Or.inl rfl, by decide⟩
    · decide
  exact ⟨hnc,
    terminationDichotomy.1 httpUnused wfNoCycleTiny ⟨"s", "START", {}⟩ rfl hnc,
    hg,
    terminationDichotomy.2 httpUnused wfSelfLoop ⟨"s", "START", {}⟩ rfl hg hlasso 7⟩

end Workflow
